import Mathlib

/-!
# Argotails — verification of the reconciliation core

A shallow embedding, in Lean 4, of the core logic of the `argotails`
controller (Go): the DNS-1035 name normalizer, the regexp tag filter, the
webhook signature verification, the secret/service reconciliation engine and
the poll-trigger retry loop.  Strings are modelled as `List Char` where the
Go code manipulates bytes of ASCII-only data; Kubernetes label/annotation
maps are modelled as association lists with Go-map insert/update semantics;
fallible operations return `Except`; the one genuinely partial operation
(`device.Addresses[0]` on a possibly empty slice) is modelled with `Option`,
`none` standing for the runtime panic.
-/

deriving instance DecidableEq for Except

namespace Argotails

/-! ## Small string helpers shared by all components -/

/-- Go `strings.Split` with a one-character separator (the source only splits
on `","` and `"="`). `split "" = [""]`, as in Go. -/
def splitOnChar (sep : Char) : List Char → List (List Char)
  | [] => [[]]
  | c :: rest =>
    match splitOnChar sep rest with
    | [] => [[]]
    | h :: t => if c = sep then [] :: h :: t else (c :: h) :: t

/-- Go `strings.Join` with a one-character separator. -/
def joinChar (sep : Char) : List (List Char) → List Char
  | [] => []
  | [x] => x
  | x :: y :: rest => x ++ sep :: joinChar sep (y :: rest)

/-- Go `strings.TrimPrefix`. -/
def goTrimPre (pre s : List Char) : List Char :=
  if pre <+: s then s.drop pre.length else s

/-- Go `strings.Trim s cutset`: remove leading and trailing characters that
belong to `cutset`. -/
def goTrimCutset (cutset : List Char) (s : List Char) : List Char :=
  ((s.dropWhile (· ∈ cutset)).reverse.dropWhile (· ∈ cutset)).reverse

/-! ## Name Normalizer (`toDNS1035Name`, reconciler.go) -/

/-- ASCII lower-casing, the fragment of Go `strings.ToLower` relevant here
(non-ASCII characters are removed by the `[^a-z0-9-]` filter right after,
so their exact case mapping is immaterial). -/
def goToLowerChar (c : Char) : Char :=
  if 'A' ≤ c ∧ c ≤ 'Z' then Char.ofNat (c.toNat + 32) else c

/-- Characters accepted by the `[^a-z0-9-]` cleaning regexp. -/
def isDNS1035Char (c : Char) : Bool :=
  ('a' ≤ c && c ≤ 'z') || ('0' ≤ c && c ≤ '9') || c = '-'

/-- Go `regexp \`-+\` → "-"`: collapse each maximal run of hyphens into a
single hyphen. -/
def collapseHyphens (l : List Char) : List Char :=
  l.foldr (fun c acc => if c = '-' ∧ acc.head? = some '-' then acc else c :: acc) []

/-- The `for len(name) > 0 && name[0] == '-'` stripping loop. -/
def dropLeadingHyphens (l : List Char) : List Char := l.dropWhile (· = '-')

/-- The `for len(name) > 0 && name[len(name)-1] == '-'` stripping loop. -/
def dropTrailingHyphens (l : List Char) : List Char :=
  (l.reverse.dropWhile (· = '-')).reverse

/-- `toDNS1035Name` (reconciler.go): lowercase, dots to hyphens, strip
invalid characters, collapse hyphen runs, strip leading/trailing hyphens,
truncate to 63 (re-stripping a trailing hyphen), fall back to
`"tailscale-device"` when empty. -/
def toDNS1035Name (deviceName : String) : String :=
  let name := deviceName.toList.map goToLowerChar
  let name := name.map (fun c => if c = '.' then '-' else c)
  let name := name.filter isDNS1035Char
  let name := collapseHyphens name
  let name := dropLeadingHyphens name
  let name := dropTrailingHyphens name
  let name := if 63 < name.length then dropTrailingHyphens (name.take 63) else name
  if name = [] then "tailscale-device" else String.mk name

example : toDNS1035Name "A.Device_1.example.ts.net" = "a-device1-example-ts-net" := by decide
example : toDNS1035Name "" = "tailscale-device" := by decide
example : toDNS1035Name "--a--b--" = "a-b" := by decide

/-- The truncation step of `toDNS1035Name`. -/
def dns1035Truncate (l : List Char) : List Char :=
  if 63 < l.length then dropTrailingHyphens (l.take 63) else l

/-- The cleaning pipeline of `toDNS1035Name`, before the empty-string
fallback. -/
def dns1035Clean (l : List Char) : List Char :=
  dns1035Truncate (dropTrailingHyphens (dropLeadingHyphens (collapseHyphens
    (((l.map goToLowerChar).map (fun c => if c = '.' then '-' else c)).filter
      isDNS1035Char))))

lemma toDNS1035Name_eq_clean (x : String) :
    toDNS1035Name x =
      if dns1035Clean x.toList = [] then "tailscale-device"
      else String.mk (dns1035Clean x.toList) := rfl

/-- No two consecutive hyphens occur in the list. -/
def noDoubleHyphen (l : List Char) : Prop := ¬ ['-', '-'] <:+: l

instance (l : List Char) : Decidable (noDoubleHyphen l) :=
  @instDecidableNot _ (List.decidableInfix _ l)

lemma singleton_isPre_iff_head (a : Char) (l : List Char) :
    [a] <+: l ↔ l.head? = some a := by
  constructor
  · rintro ⟨t, rfl⟩; rfl
  · intro h
    cases l with
    | nil => simp at h
    | cons b t =>
      simp only [List.head?_cons, Option.some.injEq] at h
      exact ⟨t, by simp [h]⟩

lemma noDoubleHyphen_cons (c : Char) (l : List Char) :
    noDoubleHyphen (c :: l) ↔
      ¬(c = '-' ∧ l.head? = some '-') ∧ noDoubleHyphen l := by
  unfold noDoubleHyphen
  rw [ List.infix_cons_iff, List.cons_prefix_cons, singleton_isPre_iff_head]
  tauto

lemma noDoubleHyphen_mono {l l' : List Char} (h : l' <:+: l)
    (hl : noDoubleHyphen l) : noDoubleHyphen l' :=
  fun hc => hl (hc.trans h)

lemma collapseHyphens_cons (c : Char) (l : List Char) :
    collapseHyphens (c :: l) =
      if c = '-' ∧ (collapseHyphens l).head? = some '-' then collapseHyphens l
      else c :: collapseHyphens l := rfl

lemma collapseHyphens_subset (l : List Char) : collapseHyphens l ⊆ l := by
  induction l with
  | nil => simp [collapseHyphens]
  | cons c t ih =>
    rw [collapseHyphens_cons]
    split
    · exact ih.trans (List.subset_cons_self c t)
    · exact List.cons_subset_cons c ih

lemma collapseHyphens_noDoubleHyphen (l : List Char) :
    noDoubleHyphen (collapseHyphens l) := by
  induction l with
  | nil => intro h; simp [collapseHyphens] at h
  | cons c t ih =>
    rw [collapseHyphens_cons]
    split
    · exact ih
    · next hcond => exact (noDoubleHyphen_cons c _).mpr ⟨hcond, ih⟩

lemma collapseHyphens_eq_self {l : List Char} (h : noDoubleHyphen l) :
    collapseHyphens l = l := by
  induction l with
  | nil => rfl
  | cons c t ih =>
    have ht : noDoubleHyphen t :=
      noDoubleHyphen_mono ( List.IsSuffix.isInfix ( List.suffix_cons c t)) h
    rw [collapseHyphens_cons, ih ht]
    rw [noDoubleHyphen_cons] at h
    simp [h.1]

lemma dropTrailingHyphens_eq_rdropWhile (l : List Char) :
    dropTrailingHyphens l = l.rdropWhile (· = '-') := rfl

lemma dropTrailingHyphens_isPre (l : List Char) : dropTrailingHyphens l <+: l :=
  List.rdropWhile_prefix _ _

lemma head?_of_isPre {l₁ l₂ : List Char} (h : l₁ <+: l₂) (hne : l₁ ≠ []) :
    l₂.head? = l₁.head? := by
  obtain ⟨t, rfl⟩ := h
  cases l₁ with
  | nil => exact absurd rfl hne
  | cons a s => rfl

lemma dropTrailingHyphens_getLast_ne (l : List Char)
    (h : dropTrailingHyphens l ≠ []) :
    (dropTrailingHyphens l).getLast? ≠ some '-' := by
  rw [dropTrailingHyphens_eq_rdropWhile] at h ⊢
  have := List.rdropWhile_last_not (· = '-') l h
  rw [List.getLast?_eq_getLast _ h]
  simpa using this

lemma dropLeadingHyphens_head?_ne (l : List Char) :
    (dropLeadingHyphens l).head? ≠ some '-' := by
  induction l with
  | nil => simp [dropLeadingHyphens]
  | cons c t ih =>
    by_cases hc : c = '-'
    · unfold dropLeadingHyphens at ih ⊢
      rw [List.dropWhile_cons_of_pos (by simpa using hc)]
      exact ih
    · unfold dropLeadingHyphens
      rw [List.dropWhile_cons_of_neg (by simpa using hc)]
      simpa using hc

lemma dns1035Truncate_isPre (l : List Char) : dns1035Truncate l <+: l := by
  unfold dns1035Truncate
  split
  · exact List.IsPrefix.trans (dropTrailingHyphens_isPre _) ( List.take_prefix _ _)
  · exact List.prefix_rfl

lemma dns1035Truncate_length (l : List Char) :
    (dns1035Truncate l).length ≤ 63 := by
  unfold dns1035Truncate
  split
  · have h1 := List.IsPrefix.length_le (dropTrailingHyphens_isPre (l.take 63))
    have h2 : (l.take 63).length ≤ 63 := by simp
    omega
  · omega

lemma dns1035Truncate_getLast_ne (l : List Char)
    (hl : l.getLast? ≠ some '-') :
    (dns1035Truncate l).getLast? ≠ some '-' := by
  unfold dns1035Truncate
  split
  · by_cases hne : dropTrailingHyphens (l.take 63) = []
    · simp [hne]
    · exact dropTrailingHyphens_getLast_ne _ hne
  · exact hl

lemma goToLowerChar_fix {c : Char} (h : isDNS1035Char c = true) :
    goToLowerChar c = c := by
  simp only [isDNS1035Char, Bool.or_eq_true, Bool.and_eq_true,
    decide_eq_true_eq] at h
  unfold goToLowerChar
  rw [if_neg]
  rintro ⟨hA, hZ⟩
  rcases h with (h | h) | h
  · exact absurd (le_trans h.1 hZ) (by decide)
  · exact absurd (le_trans hA h.2) (by decide)
  · rw [h] at hA; exact absurd hA (by decide)

lemma valid_ne_dot {c : Char} (h : isDNS1035Char c = true) : c ≠ '.' := by
  rintro rfl
  exact absurd h (by decide)

/-- Strings already in cleaned form are fixed points of the cleaning
pipeline. -/
lemma dns1035Clean_eq_self {l : List Char}
    (h1 : ∀ c ∈ l, isDNS1035Char c = true)
    (h2 : l.head? ≠ some '-') (h3 : l.getLast? ≠ some '-')
    (h4 : l.length ≤ 63) (h5 : noDoubleHyphen l) :
    dns1035Clean l = l := by
  unfold dns1035Clean
  have e1 : l.map goToLowerChar = l := by
    rw [List.map_congr_left (fun c hc => goToLowerChar_fix (h1 c hc))]
    exact List.map_id l
  rw [e1]
  have e2 : l.map (fun c => if c = '.' then '-' else c) = l := by
    rw [List.map_congr_left (g := id)
      (fun c hc => by simp [valid_ne_dot (h1 c hc)])]
    exact List.map_id l
  rw [e2]
  have e3 : l.filter isDNS1035Char = l := List.filter_eq_self.mpr h1
  rw [e3, collapseHyphens_eq_self h5]
  have e4 : dropLeadingHyphens l = l := by
    cases l with
    | nil => rfl
    | cons c t =>
      simp only [List.head?_cons, ne_eq, Option.some.injEq] at h2
      exact List.dropWhile_cons_of_neg (by simpa using h2)
  rw [e4]
  have e5 : dropTrailingHyphens l = l := by
    rw [dropTrailingHyphens_eq_rdropWhile]
    rw [List.rdropWhile_eq_self_iff]
    intro hl
    rw [List.getLast?_eq_getLast _ hl] at h3
    simpa using fun hcontra => h3 (by rw [hcontra])
  rw [e5]
  unfold dns1035Truncate
  rw [if_neg (by omega)]

/-- The cleaning pipeline establishes every DNS-1035 shape property. -/
lemma dns1035Clean_spec (l : List Char) :
    (∀ c ∈ dns1035Clean l, isDNS1035Char c = true) ∧
    (dns1035Clean l).head? ≠ some '-' ∧
    (dns1035Clean l).getLast? ≠ some '-' ∧
    (dns1035Clean l).length ≤ 63 ∧
    noDoubleHyphen (dns1035Clean l) := by
  have hclean : dns1035Clean l = dns1035Truncate (dropTrailingHyphens
      (dropLeadingHyphens (collapseHyphens (((l.map goToLowerChar).map
        (fun c => if c = '.' then '-' else c)).filter isDNS1035Char)))) := rfl
  generalize hn2 : ((l.map goToLowerChar).map
      (fun c => if c = '.' then '-' else c)).filter isDNS1035Char = n2 at hclean
  have hA : ∀ c ∈ n2, isDNS1035Char c = true := by
    intro c hc; rw [← hn2] at hc; exact (List.mem_filter.mp hc).2
  generalize hn3 : collapseHyphens n2 = n3 at hclean
  have hB1 : n3 ⊆ n2 := hn3 ▸ collapseHyphens_subset n2
  have hB2 : noDoubleHyphen n3 := hn3 ▸ collapseHyphens_noDoubleHyphen n2
  generalize hn4 : dropLeadingHyphens n3 = n4 at hclean
  have hC0 : n4 <:+ n3 := hn4 ▸ List.dropWhile_suffix _
  have hC2 : noDoubleHyphen n4 := noDoubleHyphen_mono ( List.IsSuffix.isInfix hC0) hB2
  have hChead : n4.head? ≠ some '-' := by
    rw [← hn4]
    exact dropLeadingHyphens_head?_ne n3
  generalize hn5 : dropTrailingHyphens n4 = n5 at hclean
  have hD0 : n5 <+: n4 := hn5 ▸ dropTrailingHyphens_isPre n4
  have hD2 : noDoubleHyphen n5 := noDoubleHyphen_mono ( List.IsPrefix.isInfix hD0) hC2
  have hDhead : n5.head? ≠ some '-' := by
    by_cases hne : n5 = []
    · simp [hne]
    · rw [← head?_of_isPre hD0 hne]; exact hChead
  have hDlast : n5.getLast? ≠ some '-' := by
    by_cases hne : n5 = []
    · simp [hne]
    · rw [← hn5] at hne ⊢; exact dropTrailingHyphens_getLast_ne n4 hne
  have hfin0 : dns1035Clean l <+: n5 := hclean ▸ dns1035Truncate_isPre n5
  refine ⟨?_, ?_, ?_, ?_, ?_⟩
  · intro c hc
    exact hA c (hB1 (hC0.subset (hD0.subset (hfin0.subset hc))))
  · by_cases hne : dns1035Clean l = []
    · simp [hne]
    · rw [← head?_of_isPre hfin0 hne]; exact hDhead
  · rw [hclean]; exact dns1035Truncate_getLast_ne n5 hDlast
  · rw [hclean]; exact dns1035Truncate_length n5
  · exact noDoubleHyphen_mono ( List.IsPrefix.isInfix hfin0) hD2

/-- **C7**: `toDNS1035Name` produces only lowercase letters, digits and
hyphens, never starts or ends with a hyphen, is at most 63 characters long,
contains no two consecutive hyphens, falls back to the fixed identifier
`"tailscale-device"` (never the empty string) when cleaning empties the
input, and is idempotent. -/
theorem claim_C7_normalizer (x : String) :
    (∀ c ∈ (toDNS1035Name x).toList, isDNS1035Char c = true) ∧
    (toDNS1035Name x).toList.head? ≠ some '-' ∧
    (toDNS1035Name x).toList.getLast? ≠ some '-' ∧
    (toDNS1035Name x).length ≤ 63 ∧
    noDoubleHyphen (toDNS1035Name x).toList ∧
    toDNS1035Name x ≠ "" ∧
    (dns1035Clean x.toList = [] → toDNS1035Name x = "tailscale-device") ∧
    toDNS1035Name (toDNS1035Name x) = toDNS1035Name x := by
  have hs := dns1035Clean_spec x.toList
  by_cases hemp : dns1035Clean x.toList = []
  · rw [toDNS1035Name_eq_clean, if_pos hemp]
    exact ⟨by decide, by decide, by decide, by decide, by decide, by decide,
      fun _ => rfl, by decide⟩
  · rw [toDNS1035Name_eq_clean, if_neg hemp]
    obtain ⟨hA, hH, hL, hLen, hDH⟩ := hs
    have htl : (String.mk (dns1035Clean x.toList)).toList
        = dns1035Clean x.toList := rfl
    refine ⟨?_, ?_, ?_, ?_, ?_, ?_, fun h => absurd h hemp, ?_⟩
    · rw [htl]; exact hA
    · rw [htl]; exact hH
    · rw [htl]; exact hL
    · exact hLen
    · rw [htl]; exact hDH
    · intro h
      exact hemp (by simpa using congrArg String.toList h)
    · rw [toDNS1035Name_eq_clean, htl,
        dns1035Clean_eq_self hA hH hL hLen hDH, if_neg hemp]

/-- Witness for C7 at concrete inputs (idempotence and the fallback). -/
theorem claim_C7_normalizer_witness :
    toDNS1035Name (toDNS1035Name "A.Device_1.example.ts.net")
      = toDNS1035Name "A.Device_1.example.ts.net" ∧
    toDNS1035Name "" = "tailscale-device" :=
  ⟨(claim_C7_normalizer "A.Device_1.example.ts.net").2.2.2.2.2.2.2,
   (claim_C7_normalizer "").2.2.2.2.2.2.1 (by decide)⟩

/-! ## Webhook Signature Verifier (webhook.go)

`VerifyWebhookSignature` and `parseSignatureHeader`, with the external
primitives abstracted: `mac secretKey msg` stands for the hex-encoded
HMAC-SHA256 of `msg` under `secretKey` (Go `crypto/hmac` + `encoding/hex`),
and `decode` stands for `json.Unmarshal`.  Go's `time.Time` values are
modelled by their Unix seconds; the zero `time.Time{}` (left behind by
`parseSignatureHeader` when no `t` pair occurs) has Unix seconds
`-62135596800`. -/

/-- The failure modes of webhook verification.  `unmarshalFailed` stands for
an arbitrary `json.Unmarshal` error. -/
inductive WebhookErr where
  | notSigned
  | invalidSignature
  | signatureExpired
  | signatureMismatch
  | unmarshalFailed
deriving DecidableEq

/-- One decimal digit. -/
def digitVal (c : Char) : Option Nat :=
  if '0' ≤ c ∧ c ≤ '9' then some (c.toNat - '0'.toNat) else none

/-- Decimal digit string to `Nat` (all characters must be digits). -/
def decNatAux : List Char → Nat → Option Nat
  | [], acc => some acc
  | c :: rest, acc =>
    match digitVal c with
    | some d => decNatAux rest (acc * 10 + d)
    | none => none

/-- Go `strconv.ParseInt(s, 10, 64)`, `none` for any parse error (empty
string, sign only, non-digit, or int64 overflow). -/
def parseIntGo (l : List Char) : Option Int :=
  let digits : List Char → Option Nat := fun ds =>
    match ds with
    | [] => none
    | _ => decNatAux ds 0
  match l with
  | '+' :: rest =>
    (digits rest).bind fun n => if n ≤ 2 ^ 63 - 1 then some (n : Int) else none
  | '-' :: rest =>
    (digits rest).bind fun n => if n ≤ 2 ^ 63 then some (-(n : Int)) else none
  | _ =>
    (digits l).bind fun n => if n ≤ 2 ^ 63 - 1 then some (n : Int) else none

/-- Decimal rendering of a `Nat` (fuel-based). -/
def natDecimalAux : Nat → Nat → List Char
  | 0, _ => []
  | fuel + 1, n =>
    if n < 10 then [Char.ofNat ('0'.toNat + n)]
    else natDecimalAux fuel (n / 10) ++ [Char.ofNat ('0'.toNat + n % 10)]

/-- Go `fmt.Sprint` of an integer. -/
def intDecimal : Int → List Char
  | .ofNat n => natDecimalAux (n + 1) n
  | .negSucc m => '-' :: natDecimalAux (m + 2) (m + 1)

example : intDecimal 1700000000 = "1700000000".toList := by decide
example : intDecimal (-42) = "-42".toList := by decide

/-- Unix seconds of Go's zero `time.Time{}`. -/
def goZeroTimeUnix : Int := -62135596800

/-- The pair-scanning loop of `parseSignatureHeader`: `t` pairs overwrite the
timestamp (unparseable value → `invalidSignature`), `v1` pairs accumulate,
unknown keys are skipped, malformed pairs (not exactly one `=`) →
`notSigned`; an empty final signature list → `notSigned`. -/
def parseSigPairs : List (List Char) → Int → List (List Char) →
    Except WebhookErr (Int × List (List Char))
  | [], ts, sigs => if sigs = [] then .error .notSigned else .ok (ts, sigs)
  | p :: rest, ts, sigs =>
    match splitOnChar '=' p with
    | [k, v] =>
      if k = ['t'] then
        match parseIntGo v with
        | none => .error .invalidSignature
        | some n => parseSigPairs rest n sigs
      else if k = ['v', '1'] then parseSigPairs rest ts (sigs ++ [v])
      else parseSigPairs rest ts sigs
    | _ => .error .notSigned

/-- `parseSignatureHeader` (webhook.go): split the header on commas and scan
the `key=value` pairs.  The timestamp starts as the zero `time.Time{}`. -/
def parseSignatureHeader (header : List Char) :
    Except WebhookErr (Int × List (List Char)) :=
  if header = [] then .error .notSigned
  else parseSigPairs (splitOnChar ',' header) goZeroTimeUnix []

/-- `VerifyWebhookSignature` (webhook.go).  `mac` abstracts hex-encoded
HMAC-SHA256, `decode` abstracts `json.Unmarshal`, `now` is `time.Now()` in
Unix seconds.  The expected signature is `mac secretKey
("<timestamp>" ++ "." ++ body)`; candidate comparison is Go's
constant-time byte comparison, i.e. equality. -/
def verifyWebhookSignature {T : Type} (mac : List Char → List Char → List Char)
    (decode : List Char → Except Unit T) (header secretKey body : List Char)
    (now : Int) : Except WebhookErr T :=
  match parseSignatureHeader header with
  | .error e => .error e
  | .ok (timestamp, sigs) =>
    if timestamp < now - 300 then .error .signatureExpired
    else
      let want := mac secretKey (intDecimal timestamp ++ '.' :: body)
      if sigs.any (fun sg => sg = want) then
        match decode body with
        | .ok v => .ok v
        | .error _ => .error .unmarshalFailed
      else .error .signatureMismatch

/-- A header in which no well-formed pair has key `t`. -/
def headerHasNoT (header : List Char) : Bool :=
  (splitOnChar ',' header).all fun p =>
    match splitOnChar '=' p with
    | [k, _] => !(k = ['t'] : Bool)
    | _ => true

lemma parseSigPairs_ok_sigs_ne (ps : List (List Char)) :
    ∀ ts sigs ts' sigs',
      parseSigPairs ps ts sigs = .ok (ts', sigs') → sigs' ≠ [] := by
  induction ps with
  | nil =>
    intro ts sigs ts' sigs' h
    simp only [parseSigPairs] at h
    split at h
    · exact absurd h (by simp)
    · next hne =>
      simp only [Except.ok.injEq, Prod.mk.injEq] at h
      rw [← h.2]; exact hne
  | cons p rest ih =>
    intro ts sigs ts' sigs' h
    simp only [parseSigPairs] at h
    split at h
    · split at h
      · split at h
        · exact absurd h (by simp)
        · exact ih _ _ _ _ h
      · split at h
        · exact ih _ _ _ _ h
        · exact ih _ _ _ _ h
    · exact absurd h (by simp)

lemma parseSigPairs_ts_of_noT (ps : List (List Char)) :
    ∀ ts sigs ts' sigs',
      (ps.all fun p =>
        match splitOnChar '=' p with
        | [k, _] => !(k = ['t'] : Bool)
        | _ => true) = true →
      parseSigPairs ps ts sigs = .ok (ts', sigs') → ts' = ts := by
  induction ps with
  | nil =>
    intro ts sigs ts' sigs' _ h
    simp only [parseSigPairs] at h
    split at h
    · exact absurd h (by simp)
    · simp only [Except.ok.injEq, Prod.mk.injEq] at h
      exact h.1.symm
  | cons p rest ih =>
    intro ts sigs ts' sigs' hall h
    rw [List.all_cons, Bool.and_eq_true] at hall
    simp only [parseSigPairs] at h
    split at h
    · next k v hsp =>
      rw [hsp] at hall
      split at h
      · next hk =>
        simp only [hk] at hall
        simp at hall
      · split at h
        · exact ih _ _ _ _ hall.2 h
        · exact ih _ _ _ _ hall.2 h
    · exact absurd h (by simp)

/-- **C2 (amended)**: a missing header yields `NotSigned`, and every
`parseSignatureHeader` error (`NotSigned` for malformed pairs or a missing
`v1`, `InvalidSignature` for an unparseable `t` value) is returned verbatim
by verification; a successful parse always carries at least one `v1`
candidate; but a header with `v1` pairs and no `t` pair parses successfully
with the zero `time.Time{}` timestamp, so verification then reports
`SignatureExpired` — not `NotSigned` as the claim states. -/
theorem claim_C2_header_errors_amended (T : Type)
    (mac : List Char → List Char → List Char)
    (decode : List Char → Except Unit T)
    (secretKey body : List Char) (now : Int) :
    verifyWebhookSignature mac decode [] secretKey body now
      = .error .notSigned ∧
    (∀ header e, parseSignatureHeader header = .error e →
      verifyWebhookSignature mac decode header secretKey body now
        = .error e) ∧
    (∀ header ts sigs,
      parseSignatureHeader header = .ok (ts, sigs) → sigs ≠ []) ∧
    (∀ header ts sigs, headerHasNoT header = true →
      parseSignatureHeader header = .ok (ts, sigs) → ts = goZeroTimeUnix) ∧
    (∀ header ts sigs, headerHasNoT header = true →
      parseSignatureHeader header = .ok (ts, sigs) →
      goZeroTimeUnix < now - 300 →
      verifyWebhookSignature mac decode header secretKey body now
        = .error .signatureExpired) ∧
    parseSignatureHeader "t=5".toList = .error .notSigned ∧
    parseSignatureHeader "t=xx,v1=ab".toList = .error .invalidSignature := by
  refine ⟨rfl, ?_, ?_, ?_, ?_, rfl, rfl⟩
  · intro header e h
    unfold verifyWebhookSignature
    rw [h]
  · intro header ts sigs h
    unfold parseSignatureHeader at h
    split at h
    · exact absurd h (by simp)
    · exact parseSigPairs_ok_sigs_ne _ _ _ _ _ h
  · intro header ts sigs hnoT h
    unfold parseSignatureHeader at h
    split at h
    · exact absurd h (by simp)
    · exact parseSigPairs_ts_of_noT _ _ _ _ _ hnoT h
  · intro header ts sigs hnoT h hold
    have hts : ts = goZeroTimeUnix := by
      unfold parseSignatureHeader at h
      split at h
      · exact absurd h (by simp)
      · exact parseSigPairs_ts_of_noT _ _ _ _ _ hnoT h
    simp only [verifyWebhookSignature, h]
    rw [if_pos (by rw [hts]; exact hold)]

/-- **C2 counterexample**: the header `"v1=ab"` carries a `v1` pair but no
`t` pair; the claim requires `NotSigned`, the code produces
`SignatureExpired` (the zero timestamp is stale). -/
theorem claim_C2_counterexample :
    verifyWebhookSignature (fun _ _ => []) (fun _ => Except.ok (0 : Nat))
      "v1=ab".toList [] [] 0 = .error .signatureExpired ∧
    WebhookErr.signatureExpired ≠ WebhookErr.notSigned :=
  ⟨rfl, fun h => WebhookErr.noConfusion h⟩

/-- Witness for the amended C2 at the concrete header `"v1=ab"`. -/
theorem claim_C2_header_errors_amended_witness :
    verifyWebhookSignature (fun _ _ => []) (fun b => Except.ok b)
      "v1=ab".toList "secret".toList "[]".toList 1700000000
      = .error .signatureExpired :=
  (claim_C2_header_errors_amended (List Char) (fun _ _ => [])
      (fun b => Except.ok b) "secret".toList "[]".toList
      1700000000).2.2.2.2.1 "v1=ab".toList goZeroTimeUnix
    [['a', 'b']] (by decide) rfl (by decide)

/-- **C3**: with a parsed timestamp `T0` and candidate list `sigs`, a fresh
timestamp (`now − T0 ≤ 300`) together with a candidate equal to the expected
signature `mac S ("T0" ++ "." ++ B)` verifies and returns the decoded body;
a stale timestamp (`now − T0 > 300`) yields `SignatureExpired`; freshness
without a matching candidate yields `SignatureMismatch`; and every
signature-level failure is independent of the decoder, i.e. the body is
deserialized only after the signature has verified. -/
theorem claim_C3_signature_verification (T : Type)
    (mac : List Char → List Char → List Char)
    (decode : List Char → Except Unit T)
    (header secretKey body : List Char) (now T0 : Int)
    (sigs : List (List Char)) (v : T) :
    (parseSignatureHeader header = .ok (T0, sigs) → ¬(T0 < now - 300) →
      mac secretKey (intDecimal T0 ++ '.' :: body) ∈ sigs →
      decode body = .ok v →
      verifyWebhookSignature mac decode header secretKey body now
        = .ok v) ∧
    (parseSignatureHeader header = .ok (T0, sigs) → T0 < now - 300 →
      verifyWebhookSignature mac decode header secretKey body now
        = .error .signatureExpired) ∧
    (parseSignatureHeader header = .ok (T0, sigs) → ¬(T0 < now - 300) →
      mac secretKey (intDecimal T0 ++ '.' :: body) ∉ sigs →
      verifyWebhookSignature mac decode header secretKey body now
        = .error .signatureMismatch) ∧
    (∀ (d₁ d₂ : List Char → Except Unit T) (e : WebhookErr),
      e ≠ .unmarshalFailed →
      verifyWebhookSignature mac d₁ header secretKey body now = .error e →
      verifyWebhookSignature mac d₂ header secretKey body now = .error e) := by
  refine ⟨?_, ?_, ?_, ?_⟩
  · intro hp hfresh hmem hdec
    simp only [verifyWebhookSignature, hp, if_neg hfresh]
    rw [if_pos (List.any_eq_true.mpr ⟨_, hmem, by simp⟩), hdec]
  · intro hp hold
    simp only [verifyWebhookSignature, hp, if_pos hold]
  · intro hp hfresh hnmem
    simp only [verifyWebhookSignature, hp, if_neg hfresh]
    rw [if_neg]
    intro hcontra
    obtain ⟨x, hxmem, hxeq⟩ := List.any_eq_true.mp hcontra
    rw [decide_eq_true_eq] at hxeq
    exact hnmem (hxeq ▸ hxmem)
  · intro d₁ d₂ e hne h
    cases hp : parseSignatureHeader header with
    | error e' =>
      simp only [verifyWebhookSignature, hp] at h ⊢
      exact h
    | ok pr =>
      obtain ⟨ts, sigs'⟩ := pr
      simp only [verifyWebhookSignature, hp] at h ⊢
      by_cases hold : ts < now - 300
      · rw [if_pos hold] at h ⊢; exact h
      · rw [if_neg hold] at h ⊢
        by_cases hmatch :
            (sigs'.any fun sg => sg = mac secretKey
              (intDecimal ts ++ '.' :: body)) = true
        · rw [if_pos hmatch] at h ⊢
          cases hd : d₁ body with
          | ok w =>
            simp only [hd] at h
            exact absurd h (by simp)
          | error u =>
            simp only [hd, Except.error.injEq] at h
            exact absurd h.symm hne
        · rw [if_neg hmatch] at h ⊢
          exact h

/-- Witness for C3: a concrete signed request verifies and returns the
decoded value. -/
theorem claim_C3_signature_verification_witness :
    verifyWebhookSignature (fun _ _ => ['X']) (fun _ => Except.ok (7 : Nat))
      "t=100,v1=X".toList "sec".toList "[]".toList 200 = .ok 7 :=
  (claim_C3_signature_verification Nat (fun _ _ => ['X'])
      (fun _ => Except.ok 7) "t=100,v1=X".toList "sec".toList "[]".toList
      200 100 [['X']] 7).1 rfl (by decide) (by decide) rfl

/-! ## Reconciliation Engine — data model (reconciler.go)

`tailscale.Device` restricted to the fields the reconciler reads;
Kubernetes objects keyed by `(namespace, name)`; label/annotation maps as
association lists with Go-map assignment semantics (`kvPut`). -/

structure Device where
  name : String
  nodeID : String
  hostname : String
  os : String
  clientVersion : String
  tags : List String
  addresses : List String
deriving DecidableEq

/-- `types.NamespacedName`. -/
structure NsName where
  ns : String
  name : String
deriving DecidableEq

/-- A Go `map[string]string`, as an association list. -/
abbrev KVMap := List (String × String)

def kvGet : KVMap → String → Option String
  | [], _ => none
  | (k', v') :: rest, k => if k' = k then some v' else kvGet rest k

/-- Go map assignment `m[k] = v`. -/
def kvPut : KVMap → String → String → KVMap
  | [], k, v => [(k, v)]
  | (k', v') :: rest, k, v =>
    if k' = k then (k, v) :: rest else (k', v') :: kvPut rest k v

/-- `corev1.Secret` restricted to what the reconciler touches.  `data none`
models Go `Data = nil`. -/
structure Secret where
  name : String
  ns : String
  annotations : KVMap
  labels : KVMap
  stringData : KVMap
  data : Option KVMap
deriving DecidableEq

/-- `corev1.Service` restricted to what the reconciler touches. -/
structure Service where
  name : String
  ns : String
  annotations : KVMap
  labels : KVMap
  externalName : String
deriving DecidableEq

def AnnotationDeviceID : String := "device.tailscale.com/id"
def AnnotationDeviceAddress : String := "device.tailscale.com/address"
def AnnotationDeviceHostname : String := "device.tailscale.com/hostname"
def AnnotationDeviceTailnet : String := "device.tailscale.com/tailnet"
def LabelDeviceOS : String := "device.tailscale.com/os"
def LabelDeviceVersion : String := "device.tailscale.com/version"
/-- `LabelDeviceTagsPrefix` in the source. -/
def LabelDeviceTagsPre : String := "tag.device.tailscale.com/"
def LabelSecretType : String := "argocd.argoproj.io/secret-type"
def LabelManagedBy : String := "apps.kubernetes.io/managed-by"

/-- The connection-config payload written into every secret. -/
def clusterConfigJSON : String :=
  "\x7b\"tlsClientConfig\":\x7b\"insecure\":false\x7d\x7d"

/-- Condition of the Go regex `rxTailnet = \.(.+\.ts\.net$)` at one position:
the remainder must end in `".ts.net"` with at least one character before. -/
def tailnetSuffixOk (s : List Char) : Bool :=
  decide (8 ≤ s.length) && decide (".ts.net".toList <:+ s)

/-- `rxTailnet.FindStringSubmatch(name)[1]`: everything after the leftmost
`'.'` whose remainder satisfies `tailnetSuffixOk`; `none` when the regex
does not match. -/
def goTailnetOf : List Char → Option (List Char)
  | [] => none
  | c :: rest =>
    if c = '.' ∧ tailnetSuffixOk rest then some rest else goTailnetOf rest

def tailnetOf (name : String) : Option String :=
  (goTailnetOf name.toList).map String.mk

example : tailnetOf "A.fake.ts.net" = some "fake.ts.net" := by decide
example : tailnetOf "device" = none := by decide
example : tailnetOf "x.ts.net" = none := by decide

/-- `LabelDeviceTagsPrefix + strings.TrimPrefix(tag, "tag:")`. -/
def tagLabelKey (tag : String) : String :=
  LabelDeviceTagsPre ++ String.mk (goTrimPre "tag:".toList tag.toList)

/-- The per-tag label loop `for _, tag := range device.Tags`. -/
def putTagLabels (tags : List String) (m : KVMap) : KVMap :=
  tags.foldl (fun m tag => kvPut m (tagLabelKey tag) "") m

/-- The Secret built by `CreateDeviceSecret`; `none` models the Go panic on
`device.Addresses[0]` when the address list is empty. -/
def mkDeviceSecret (managedBy : String) (nn : NsName) (d : Device) :
    Option Secret :=
  d.addresses.head?.map fun addr =>
    let annotations : KVMap :=
      [(AnnotationDeviceID, d.nodeID),
       (AnnotationDeviceAddress, addr),
       (AnnotationDeviceHostname, d.hostname)]
    let labels : KVMap :=
      [(LabelSecretType, "cluster"),
       (LabelManagedBy, managedBy),
       (LabelDeviceOS, d.os),
       (LabelDeviceVersion, d.clientVersion)]
    let annotations :=
      match tailnetOf d.name with
      | some t => kvPut annotations AnnotationDeviceTailnet t
      | none => annotations
    let labels := putTagLabels d.tags labels
    { name := nn.name, ns := nn.ns,
      annotations := annotations, labels := labels,
      stringData :=
        [("name", d.name), ("server", "https://" ++ d.name),
         ("config", clusterConfigJSON)],
      data := none }

/-- The in-place mutation `UpdateDeviceSecret` performs on the fetched
Secret; `none` models the `device.Addresses[0]` panic. -/
def updateDeviceSecretObj (managedBy : String) (sec : Secret) (d : Device) :
    Option Secret :=
  d.addresses.head?.map fun addr =>
    let annotations :=
      kvPut (kvPut (kvPut sec.annotations AnnotationDeviceID d.nodeID)
        AnnotationDeviceHostname d.hostname) AnnotationDeviceAddress addr
    let labels :=
      kvPut (kvPut (kvPut (kvPut sec.labels LabelSecretType "cluster")
        LabelManagedBy managedBy) LabelDeviceOS d.os)
        LabelDeviceVersion d.clientVersion
    let annotations :=
      match tailnetOf d.name with
      | some t => kvPut annotations AnnotationDeviceTailnet t
      | none => annotations
    let labels := putTagLabels d.tags labels
    { sec with
      annotations := annotations, labels := labels,
      data := none,
      stringData :=
        [("name", d.name), ("server", "https://" ++ d.name),
         ("config", clusterConfigJSON)] }

/-- The Service built by `CreateDeviceService`. -/
def mkDeviceService (managedBy proxyClass : String) (nn : NsName)
    (d : Device) : Service :=
  let annotations : KVMap := [("tailscale.com/hostname", d.hostname)]
  let labels : KVMap :=
    [(LabelManagedBy, managedBy),
     (LabelDeviceOS, d.os),
     (LabelDeviceVersion, d.clientVersion)]
  let annotations :=
    if proxyClass ≠ "" then
      kvPut annotations "tailscale.com/proxy-class" proxyClass
    else annotations
  let labels := putTagLabels d.tags labels
  { name := toDNS1035Name nn.name, ns := nn.ns,
    annotations := annotations, labels := labels,
    externalName := "ts.net" }

/-- The in-place mutation `UpdateDeviceService` performs on the fetched
Service. -/
def updateDeviceServiceObj (managedBy proxyClass : String) (svc : Service)
    (d : Device) : Service :=
  let annotations := kvPut svc.annotations "tailscale.com/hostname" d.hostname
  let labels :=
    kvPut (kvPut (kvPut svc.labels LabelManagedBy managedBy)
      LabelDeviceOS d.os) LabelDeviceVersion d.clientVersion
  let annotations :=
    if proxyClass ≠ "" then
      kvPut annotations "tailscale.com/proxy-class" proxyClass
    else annotations
  let labels := putTagLabels d.tags labels
  { svc with annotations := annotations, labels := labels }

/-! ## Reconciliation Engine — cluster client and reconcile flow

The Kubernetes client (`client.Client`) is modelled as a record of
state-passing operations over an abstract state `σ`, so that error handling
can be settled for arbitrary client behaviours; `honestOps` below implements
it over an explicit store, mirroring a fake API server. -/

/-- Kubernetes API error classes distinguished by the reconciler
(`errors.IsNotFound`, `errors.IsAlreadyExists`, everything else). -/
inductive KErr where
  | notFound
  | alreadyExists
  | other (code : Nat)
deriving DecidableEq

def KErr.isNotFound : KErr → Bool
  | .notFound => true
  | _ => false

def KErr.isAlreadyExists : KErr → Bool
  | .alreadyExists => true
  | _ => false

/-- The cluster-resource client: get/create/update/delete on Secrets and
Services, passing an abstract client state. -/
structure KubeOps (σ : Type) where
  getSecret : σ → NsName → Except KErr Secret × σ
  createSecret : σ → Secret → Except KErr Unit × σ
  updateSecret : σ → Secret → Except KErr Unit × σ
  deleteSecret : σ → NsName → Except KErr Unit × σ
  getService : σ → NsName → Except KErr Service × σ
  createService : σ → Service → Except KErr Unit × σ
  updateService : σ → Service → Except KErr Unit × σ
  deleteService : σ → NsName → Except KErr Unit × σ

variable {σ : Type}

/-- `ServiceConfig` (reconciler.go). -/
structure ServiceConfig where
  createService : Bool
  proxyClass : String
  ns : String
deriving DecidableEq

/-- `DeleteDeviceSecret`: get first; absent is a no-op success; otherwise
delete by key. -/
def DeleteDeviceSecret (ops : KubeOps σ) (s : σ) (nn : NsName) :
    Except KErr Unit × σ :=
  let r := ops.getSecret s nn
  match r.1 with
  | .error e => if e.isNotFound then (.ok (), r.2) else (.error e, r.2)
  | .ok _ => ops.deleteSecret r.2 nn

/-- `CreateDeviceSecret`: build the secret from the device and create it
(`none` = the `Addresses[0]` panic). -/
def CreateDeviceSecret (ops : KubeOps σ) (managedBy : String) (s : σ)
    (nn : NsName) (d : Device) : Option (Except KErr Unit × σ) :=
  (mkDeviceSecret managedBy nn d).map fun sec => ops.createSecret s sec

/-- `UpdateDeviceSecret`: re-get the secret, merge the device-derived
fields, write back (`none` = the `Addresses[0]` panic). -/
def UpdateDeviceSecret (ops : KubeOps σ) (managedBy : String) (s : σ)
    (nn : NsName) (d : Device) : Option (Except KErr Unit × σ) :=
  let r := ops.getSecret s nn
  match r.1 with
  | .error e => some (.error e, r.2)
  | .ok sec =>
    (updateDeviceSecretObj managedBy sec d).map fun sec' =>
      ops.updateSecret r.2 sec'

/-- `CreateDeviceService`. -/
def CreateDeviceService (ops : KubeOps σ) (managedBy proxyClass : String)
    (s : σ) (nn : NsName) (d : Device) : Except KErr Unit × σ :=
  ops.createService s (mkDeviceService managedBy proxyClass nn d)

/-- `UpdateDeviceService`: get by the DNS-1035 name; not-found falls back to
`CreateDeviceService`; otherwise merge and update. -/
def UpdateDeviceService (ops : KubeOps σ) (managedBy proxyClass : String)
    (s : σ) (nn : NsName) (d : Device) : Except KErr Unit × σ :=
  let r := ops.getService s (NsName.mk nn.ns (toDNS1035Name nn.name))
  match r.1 with
  | .error e =>
    if e.isNotFound then CreateDeviceService ops managedBy proxyClass r.2 nn d
    else (.error e, r.2)
  | .ok svc =>
    ops.updateService r.2 (updateDeviceServiceObj managedBy proxyClass svc d)

/-- `DeleteDeviceService`. -/
def DeleteDeviceService (ops : KubeOps σ) (s : σ) (nn : NsName) :
    Except KErr Unit × σ :=
  let r := ops.getService s (NsName.mk nn.ns (toDNS1035Name nn.name))
  match r.1 with
  | .error e => if e.isNotFound then (.ok (), r.2) else (.error e, r.2)
  | .ok _ => ops.deleteService r.2 (NsName.mk nn.ns (toDNS1035Name nn.name))

/-- Result classification of `Reconcile`: `.error` corresponds to
`(reconcile.Result{Requeue: true}, err)`, `.ok` to `(reconcile.Result{},
nil)` with the logged outcome. -/
inductive RecErr where
  | listDevices
  | kube (e : KErr)
deriving DecidableEq

inductive Outcome where
  | deleted
  | created
  | updated
deriving DecidableEq

/-- `if err != nil && !absorbed(err)`: `some e` is a fatal error, `none`
means success or an absorbed error. -/
def absorb (absorbed : KErr → Bool) : Except KErr Unit → Option KErr
  | .ok _ => none
  | .error e => if absorbed e then none else some e

/-- The deletion branch of `Reconcile` (device absent or filtered): delete
the secret (not-found absorbed), then the service if enabled (not-found
absorbed). -/
def reconcileDeletion (ops : KubeOps σ) (svcCfg : ServiceConfig)
    (req : NsName) (s : σ) : Option (Except RecErr Outcome × σ) :=
  let r := DeleteDeviceSecret ops s req
  match absorb KErr.isNotFound r.1 with
  | some e => some (.error (.kube e), r.2)
  | none =>
    if svcCfg.createService then
      let r2 := DeleteDeviceService ops r.2 req
      match absorb KErr.isNotFound r2.1 with
      | some e => some (.error (.kube e), r2.2)
      | none => some (.ok .deleted, r2.2)
    else some (.ok .deleted, r.2)

/-- The create path of `Reconcile` (secret not found): create the secret
(already-exists absorbed), then the service if enabled (already-exists
absorbed). -/
def reconcileCreate (ops : KubeOps σ) (managedBy : String)
    (svcCfg : ServiceConfig) (req : NsName) (d : Device) (s : σ) :
    Option (Except RecErr Outcome × σ) :=
  match CreateDeviceSecret ops managedBy s req d with
  | none => none
  | some r =>
    match absorb KErr.isAlreadyExists r.1 with
    | some e => some (.error (.kube e), r.2)
    | none =>
      if svcCfg.createService then
        let r2 := CreateDeviceService ops managedBy svcCfg.proxyClass r.2 req d
        match absorb KErr.isAlreadyExists r2.1 with
        | some e => some (.error (.kube e), r2.2)
        | none => some (.ok .created, r2.2)
      else some (.ok .created, r.2)

/-- The update path of `Reconcile` (secret found): update the secret (any
error aborts), then the service if enabled (any error aborts). -/
def reconcileUpdate (ops : KubeOps σ) (managedBy : String)
    (svcCfg : ServiceConfig) (req : NsName) (d : Device) (s : σ) :
    Option (Except RecErr Outcome × σ) :=
  match UpdateDeviceSecret ops managedBy s req d with
  | none => none
  | some r =>
    match r.1 with
    | .error e => some (.error (.kube e), r.2)
    | .ok _ =>
      if svcCfg.createService then
        let r2 := UpdateDeviceService ops managedBy svcCfg.proxyClass r.2 req d
        match r2.1 with
        | .error e => some (.error (.kube e), r2.2)
        | .ok _ => some (.ok .updated, r2.2)
      else some (.ok .updated, r.2)

/-- `Reconcile` (reconciler.go): list devices (failure aborts with requeue),
find the first device whose name matches the request, and take the deletion
branch when absent or filtered, otherwise create or update depending on
whether the secret exists.  `none` models the `Addresses[0]` panic. -/
def Reconcile (ops : KubeOps σ) (filter : Device → Bool) (managedBy : String)
    (svcCfg : ServiceConfig) (devicesRes : Except Unit (List Device))
    (req : NsName) (s : σ) : Option (Except RecErr Outcome × σ) :=
  match devicesRes with
  | .error _ => some (.error .listDevices, s)
  | .ok devices =>
    match devices.find? fun d => d.name = req.name with
    | none => reconcileDeletion ops svcCfg req s
    | some d =>
      if filter d then
        let g := ops.getSecret s req
        match g.1 with
        | .error e =>
          if e.isNotFound then reconcileCreate ops managedBy svcCfg req d g.2
          else some (.error (.kube e), g.2)
        | .ok _ => reconcileUpdate ops managedBy svcCfg req d g.2
      else reconcileDeletion ops svcCfg req s

/-! ### The honest (fake API server) client -/

/-- Keyed store lookup. -/
def resGet {α : Type} : List (NsName × α) → NsName → Option α
  | [], _ => none
  | (k, x) :: rest, nn => if k = nn then some x else resGet rest nn

/-- Keyed store insert/replace. -/
def resPut {α : Type} : List (NsName × α) → NsName → α → List (NsName × α)
  | [], nn, x => [(nn, x)]
  | (k, y) :: rest, nn, x =>
    if k = nn then (nn, x) :: rest else (k, y) :: resPut rest nn x

/-- Keyed store removal. -/
def resDel {α : Type} (m : List (NsName × α)) (nn : NsName) :
    List (NsName × α) :=
  m.filter fun p => !(p.1 = nn : Bool)

/-- The cluster store: Secrets and Services. -/
structure KState where
  secrets : List (NsName × Secret)
  services : List (NsName × Service)
deriving DecidableEq

/-- A client that behaves like the API server over an explicit store:
get reports not-found for absent keys, create reports already-exists for
present keys, update reports not-found for absent keys. -/
def honestOps : KubeOps KState where
  getSecret s nn :=
    match resGet s.secrets nn with
    | some sec => (.ok sec, s)
    | none => (.error .notFound, s)
  createSecret s sec :=
    if (resGet s.secrets (NsName.mk sec.ns sec.name)).isSome then
      (.error .alreadyExists, s)
    else
      (.ok (), { s with
        secrets := resPut s.secrets (NsName.mk sec.ns sec.name) sec })
  updateSecret s sec :=
    if (resGet s.secrets (NsName.mk sec.ns sec.name)).isSome then
      (.ok (), { s with
        secrets := resPut s.secrets (NsName.mk sec.ns sec.name) sec })
    else (.error .notFound, s)
  deleteSecret s nn :=
    if (resGet s.secrets nn).isSome then
      (.ok (), { s with secrets := resDel s.secrets nn })
    else (.error .notFound, s)
  getService s nn :=
    match resGet s.services nn with
    | some svc => (.ok svc, s)
    | none => (.error .notFound, s)
  createService s svc :=
    if (resGet s.services (NsName.mk svc.ns svc.name)).isSome then
      (.error .alreadyExists, s)
    else
      (.ok (), { s with
        services := resPut s.services (NsName.mk svc.ns svc.name) svc })
  updateService s svc :=
    if (resGet s.services (NsName.mk svc.ns svc.name)).isSome then
      (.ok (), { s with
        services := resPut s.services (NsName.mk svc.ns svc.name) svc })
    else (.error .notFound, s)
  deleteService s nn :=
    if (resGet s.services nn).isSome then
      (.ok (), { s with services := resDel s.services nn })
    else (.error .notFound, s)

/-! ### Map and key lemmas -/

lemma kvGet_kvPut_self (m : KVMap) (k v : String) :
    kvGet (kvPut m k v) k = some v := by
  induction m with
  | nil =>
    show (if k = k then some v else kvGet [] k) = some v
    rw [if_pos rfl]
  | cons p rest ih =>
    obtain ⟨a, b⟩ := p
    show kvGet (if a = k then (k, v) :: rest else (a, b) :: kvPut rest k v) k
      = some v
    by_cases ha : a = k
    · rw [if_pos ha]
      show (if k = k then some v else kvGet rest k) = some v
      rw [if_pos rfl]
    · rw [if_neg ha]
      show (if a = k then some b else kvGet (kvPut rest k v) k) = some v
      rw [if_neg ha]
      exact ih

lemma kvGet_kvPut_ne (m : KVMap) {k k' : String} (h : k ≠ k') (v : String) :
    kvGet (kvPut m k v) k' = kvGet m k' := by
  induction m with
  | nil =>
    show (if k = k' then some v else kvGet [] k') = kvGet [] k'
    rw [if_neg h]
  | cons p rest ih =>
    obtain ⟨a, b⟩ := p
    show kvGet (if a = k then (k, v) :: rest else (a, b) :: kvPut rest k v) k'
      = kvGet ((a, b) :: rest) k'
    by_cases ha : a = k
    · rw [if_pos ha]
      show (if k = k' then some v else kvGet rest k')
        = if a = k' then some b else kvGet rest k'
      rw [if_neg h, if_neg (by rw [ha]; exact h)]
    · rw [if_neg ha]
      show (if a = k' then some b else kvGet (kvPut rest k v) k')
        = if a = k' then some b else kvGet rest k'
      by_cases ha' : a = k'
      · rw [if_pos ha', if_pos ha']
      · rw [if_neg ha', if_neg ha']
        exact ih

lemma putTagLabels_get (tags : List String) (m : KVMap) (k : String) :
    kvGet (putTagLabels tags m) k =
      if ∃ tag ∈ tags, tagLabelKey tag = k then some "" else kvGet m k := by
  induction tags generalizing m with
  | nil => simp [putTagLabels]
  | cons t rest ih =>
    have hstep : putTagLabels (t :: rest) m
        = putTagLabels rest (kvPut m (tagLabelKey t) "") := rfl
    rw [hstep, ih]
    by_cases hex : ∃ tag ∈ rest, tagLabelKey tag = k
    · rw [if_pos hex, if_pos ?_]
      obtain ⟨tag, htag, hkey⟩ := hex
      exact ⟨tag, List.mem_cons_of_mem t htag, hkey⟩
    · rw [if_neg hex]
      by_cases ht : tagLabelKey t = k
      · rw [ht, kvGet_kvPut_self, if_pos ⟨t, List.mem_cons_self t rest, ht⟩]
      · rw [kvGet_kvPut_ne m ht, if_neg ?_]
        rintro ⟨tag, htag, hkey⟩
        rcases List.mem_cons.mp htag with rfl | hmem
        · exact ht hkey
        · exact hex ⟨tag, hmem, hkey⟩

lemma tagLabelKey_head (tag : String) :
    (tagLabelKey tag).toList.head? = some 't' := by
  unfold tagLabelKey
  show (LabelDeviceTagsPre ++ String.mk (goTrimPre "tag:".toList tag.toList)).data.head? = some 't'
  rw [String.data_append]
  rw [List.head?_append_of_ne_nil _ (by decide)]
  decide

lemma tagLabelKey_ne {k : String} (h : k.toList.head? ≠ some 't')
    (tag : String) : tagLabelKey tag ≠ k :=
  fun hc => h (hc ▸ tagLabelKey_head tag)

/-- **C10**: `CreateDeviceSecret` and `UpdateDeviceSecret` read
`device.Addresses[0]` unguarded: with an empty address list both operations
are undefined (modelled `none`, the out-of-range panic) rather than an
error, and with a non-empty list both are defined. -/
theorem claim_C10_addresses_unguarded (managedBy : String) (nn : NsName)
    (d : Device) :
    (d.addresses = [] → mkDeviceSecret managedBy nn d = none) ∧
    (d.addresses = [] →
      ∀ sec : Secret, updateDeviceSecretObj managedBy sec d = none) ∧
    (d.addresses ≠ [] → (mkDeviceSecret managedBy nn d).isSome = true) ∧
    (d.addresses ≠ [] →
      ∀ sec : Secret, (updateDeviceSecretObj managedBy sec d).isSome = true) ∧
    (∀ (σ : Type) (ops : KubeOps σ) (s : σ), d.addresses = [] →
      CreateDeviceSecret ops managedBy s nn d = none) ∧
    (∀ (σ : Type) (ops : KubeOps σ) (s s' : σ) (sec : Secret),
      d.addresses = [] → ops.getSecret s nn = (.ok sec, s') →
      UpdateDeviceSecret ops managedBy s nn d = none) := by
  refine ⟨?_, ?_, ?_, ?_, ?_, ?_⟩
  · intro h; unfold mkDeviceSecret; rw [h]; rfl
  · intro h sec; unfold updateDeviceSecretObj; rw [h]; rfl
  · intro h
    unfold mkDeviceSecret
    cases ha : d.addresses with
    | nil => exact absurd ha h
    | cons a rest => rfl
  · intro h sec
    unfold updateDeviceSecretObj
    cases ha : d.addresses with
    | nil => exact absurd ha h
    | cons a rest => rfl
  · intro σ' ops s h
    unfold CreateDeviceSecret mkDeviceSecret
    rw [h]
    rfl
  · intro σ' ops s s' sec h hget
    unfold UpdateDeviceSecret
    rw [hget]
    unfold updateDeviceSecretObj
    rw [h]
    rfl

/-- A device with no addresses, for the C10 witness. -/
def noAddrDevice : Device :=
  { name := "a.fake.ts.net", nodeID := "id0", hostname := "a", os := "linux",
    clientVersion := "v1", tags := ["tag:a"], addresses := [] }

/-- An empty secret used by concrete clients in witnesses. -/
def probeSecret : Secret :=
  { name := "a.fake.ts.net", ns := "default", annotations := [],
    labels := [], stringData := [], data := none }

/-- A trivial client whose get returns `probeSecret`, for witnesses. -/
def probeOps : KubeOps Unit where
  getSecret s _ := (.ok probeSecret, s)
  createSecret s _ := (.ok (), s)
  updateSecret s _ := (.ok (), s)
  deleteSecret s _ := (.ok (), s)
  getService s _ := (.error .notFound, s)
  createService s _ := (.ok (), s)
  updateService s _ := (.ok (), s)
  deleteService s _ := (.ok (), s)

/-- Witness for C10: the concrete address-less device makes create and
update undefined. -/
theorem claim_C10_addresses_unguarded_witness :
    CreateDeviceSecret probeOps "ctl" () (NsName.mk "default" "a.fake.ts.net")
      noAddrDevice = none ∧
    UpdateDeviceSecret probeOps "ctl" () (NsName.mk "default" "a.fake.ts.net")
      noAddrDevice = none :=
  ⟨(claim_C10_addresses_unguarded "ctl" (NsName.mk "default" "a.fake.ts.net")
      noAddrDevice).2.2.2.2.1 Unit probeOps () rfl,
   (claim_C10_addresses_unguarded "ctl" (NsName.mk "default" "a.fake.ts.net")
      noAddrDevice).2.2.2.2.2 Unit probeOps () () probeSecret rfl rfl⟩

/-! ### Update semantics: C4 and C5 -/

/-- **C4 (amended)**: after a successful `UpdateDeviceSecret` merge, every
scalar device-derived field (id, hostname, address, tailnet, OS, version,
ownership labels, payload) equals the current device, and a tag label exists
for every current tag; however tag-derived labels of tags the device no
longer carries are *not* removed — the merge leaves any label key outside
the written set untouched, including stale `tag.device.tailscale.com/…`
keys. -/
theorem claim_C4_device_fields_amended (managedBy : String) (sec : Secret)
    (d : Device) (sec' : Secret)
    (h : updateDeviceSecretObj managedBy sec d = some sec') :
    kvGet sec'.annotations AnnotationDeviceID = some d.nodeID ∧
    kvGet sec'.annotations AnnotationDeviceHostname = some d.hostname ∧
    kvGet sec'.annotations AnnotationDeviceAddress = d.addresses.head? ∧
    (∀ t, tailnetOf d.name = some t →
      kvGet sec'.annotations AnnotationDeviceTailnet = some t) ∧
    kvGet sec'.labels LabelDeviceOS = some d.os ∧
    kvGet sec'.labels LabelDeviceVersion = some d.clientVersion ∧
    kvGet sec'.labels LabelSecretType = some "cluster" ∧
    kvGet sec'.labels LabelManagedBy = some managedBy ∧
    (∀ tag ∈ d.tags, kvGet sec'.labels (tagLabelKey tag) = some "") ∧
    sec'.stringData = [("name", d.name), ("server", "https://" ++ d.name),
      ("config", clusterConfigJSON)] ∧
    sec'.data = none ∧
    (∀ k : String, (∀ tag ∈ d.tags, tagLabelKey tag ≠ k) →
      k.toList.head? = some 't' →
      kvGet sec'.labels k = kvGet sec.labels k) := by
  unfold updateDeviceSecretObj at h
  cases ha : d.addresses.head? with
  | none => rw [ha] at h; exact absurd h (by simp)
  | some addr =>
    rw [ha] at h
    simp only [Option.map_some'] at h
    obtain rfl := (Option.some.inj h).symm
    have hann : ∀ k : String, k ≠ AnnotationDeviceTailnet →
        kvGet (match tailnetOf d.name with
          | some t => kvPut (kvPut (kvPut (kvPut sec.annotations
              AnnotationDeviceID d.nodeID) AnnotationDeviceHostname
              d.hostname) AnnotationDeviceAddress addr)
              AnnotationDeviceTailnet t
          | none => kvPut (kvPut (kvPut sec.annotations
              AnnotationDeviceID d.nodeID) AnnotationDeviceHostname
              d.hostname) AnnotationDeviceAddress addr) k
        = kvGet (kvPut (kvPut (kvPut sec.annotations
            AnnotationDeviceID d.nodeID) AnnotationDeviceHostname
            d.hostname) AnnotationDeviceAddress addr) k := by
      intro k hk
      cases htn : tailnetOf d.name with
      | none => rfl
      | some t => exact kvGet_kvPut_ne _ (fun hc => hk hc.symm) t
    refine ⟨?_, ?_, ?_, ?_, ?_, ?_, ?_, ?_, ?_, rfl, rfl, ?_⟩
    · show kvGet _ AnnotationDeviceID = some d.nodeID
      rw [hann _ (by decide), kvGet_kvPut_ne _ (by decide),
        kvGet_kvPut_ne _ (by decide), kvGet_kvPut_self]
    · show kvGet _ AnnotationDeviceHostname = some d.hostname
      rw [hann _ (by decide), kvGet_kvPut_ne _ (by decide), kvGet_kvPut_self]
    · show kvGet _ AnnotationDeviceAddress = some addr
      rw [hann _ (by decide), kvGet_kvPut_self]
    · intro t ht
      show kvGet _ AnnotationDeviceTailnet = some t
      rw [ht, kvGet_kvPut_self]
    · show kvGet (putTagLabels _ _) LabelDeviceOS = some d.os
      rw [putTagLabels_get,
        if_neg (by rintro ⟨tag, _, hkey⟩; exact tagLabelKey_ne (by decide) tag hkey),
        kvGet_kvPut_ne _ (by decide), kvGet_kvPut_self]
    · show kvGet (putTagLabels _ _) LabelDeviceVersion = some d.clientVersion
      rw [putTagLabels_get,
        if_neg (by rintro ⟨tag, _, hkey⟩; exact tagLabelKey_ne (by decide) tag hkey),
        kvGet_kvPut_self]
    · show kvGet (putTagLabels _ _) LabelSecretType = some "cluster"
      rw [putTagLabels_get,
        if_neg (by rintro ⟨tag, _, hkey⟩; exact tagLabelKey_ne (by decide) tag hkey),
        kvGet_kvPut_ne _ (by decide), kvGet_kvPut_ne _ (by decide),
        kvGet_kvPut_ne _ (by decide), kvGet_kvPut_self]
    · show kvGet (putTagLabels _ _) LabelManagedBy = some managedBy
      rw [putTagLabels_get,
        if_neg (by rintro ⟨tag, _, hkey⟩; exact tagLabelKey_ne (by decide) tag hkey),
        kvGet_kvPut_ne _ (by decide), kvGet_kvPut_ne _ (by decide),
        kvGet_kvPut_self]
    · intro tag htag
      show kvGet (putTagLabels _ _) (tagLabelKey tag) = some ""
      rw [putTagLabels_get, if_pos ⟨tag, htag, rfl⟩]
    · intro k hk hhead
      show kvGet (putTagLabels _ _) k = kvGet sec.labels k
      rw [putTagLabels_get, if_neg (by rintro ⟨tag, htag, hkey⟩; exact hk tag htag hkey)]
      rw [kvGet_kvPut_ne _ (fun hc => by rw [← hc] at hhead; exact absurd hhead (by decide)),
        kvGet_kvPut_ne _ (fun hc => by rw [← hc] at hhead; exact absurd hhead (by decide)),
        kvGet_kvPut_ne _ (fun hc => by rw [← hc] at hhead; exact absurd hhead (by decide)),
        kvGet_kvPut_ne _ (fun hc => by rw [← hc] at hhead; exact absurd hhead (by decide))]

/-- A secret carrying a stale tag-derived label and an unrelated label. -/
def staleSecret : Secret :=
  { name := "a.fake.ts.net", ns := "default",
    annotations := [(AnnotationDeviceID, "old-id")],
    labels := [(tagLabelKey "tag:old", ""), ("team", "payments"),
      (LabelDeviceOS, "not-linux")],
    stringData := [], data := none }

/-- The current device: carries `tag:new`, not `tag:old`. -/
def freshDevice : Device :=
  { name := "a.fake.ts.net", nodeID := "new-id", hostname := "a",
    os := "linux", clientVersion := "v2", tags := ["tag:new"],
    addresses := ["100.64.0.1"] }

/-- **C4 counterexample**: the tag-derived label of the dropped tag
`tag:old` survives the update, so not every device-derived key equals the
current device's data. -/
theorem claim_C4_counterexample :
    (updateDeviceSecretObj "ctl" staleSecret freshDevice).map
        (fun sec' => kvGet sec'.labels (tagLabelKey "tag:old"))
      = some (some "") ∧
    "tag:old" ∉ freshDevice.tags := ⟨by decide, by decide⟩

/-- The updated secret at the witnesses' concrete input. -/
def updatedStaleSecret : Secret :=
  (updateDeviceSecretObj "ctl" staleSecret freshDevice).getD probeSecret

/-- Witness for the amended C4 at a concrete update. -/
theorem claim_C4_device_fields_amended_witness :
    kvGet updatedStaleSecret.labels LabelDeviceOS = some "linux" :=
  (claim_C4_device_fields_amended "ctl" staleSecret freshDevice
    updatedStaleSecret (by decide)).2.2.2.2.1

/-- **C5**: `UpdateDeviceSecret` merges device-derived keys into the
existing annotation and label maps; every key outside the written set
(device-derived annotations; ownership/OS/version labels and the current
tags' labels) keeps its previous value — the maps are never replaced
wholesale. -/
theorem claim_C5_merge_preserves_unrelated (managedBy : String)
    (sec : Secret) (d : Device) (sec' : Secret) (k : String)
    (h : updateDeviceSecretObj managedBy sec d = some sec') :
    (k ≠ AnnotationDeviceID → k ≠ AnnotationDeviceHostname →
      k ≠ AnnotationDeviceAddress → k ≠ AnnotationDeviceTailnet →
      kvGet sec'.annotations k = kvGet sec.annotations k) ∧
    (k ≠ LabelSecretType → k ≠ LabelManagedBy → k ≠ LabelDeviceOS →
      k ≠ LabelDeviceVersion → (∀ tag ∈ d.tags, tagLabelKey tag ≠ k) →
      kvGet sec'.labels k = kvGet sec.labels k) := by
  unfold updateDeviceSecretObj at h
  cases ha : d.addresses.head? with
  | none => rw [ha] at h; exact absurd h (by simp)
  | some addr =>
    rw [ha] at h
    simp only [Option.map_some'] at h
    obtain rfl := (Option.some.inj h).symm
    constructor
    · intro h1 h2 h3 h4
      show kvGet (match tailnetOf d.name with
        | some t => kvPut _ AnnotationDeviceTailnet t
        | none => _) k = kvGet sec.annotations k
      have : kvGet (kvPut (kvPut (kvPut sec.annotations
          AnnotationDeviceID d.nodeID) AnnotationDeviceHostname d.hostname)
          AnnotationDeviceAddress addr) k = kvGet sec.annotations k := by
        rw [kvGet_kvPut_ne _ (fun hc => h3 hc.symm),
          kvGet_kvPut_ne _ (fun hc => h2 hc.symm),
          kvGet_kvPut_ne _ (fun hc => h1 hc.symm)]
      cases htn : tailnetOf d.name with
      | none => exact this
      | some t => rw [kvGet_kvPut_ne _ (fun hc => h4 hc.symm)]; exact this
    · intro h1 h2 h3 h4 htags
      show kvGet (putTagLabels _ _) k = kvGet sec.labels k
      rw [putTagLabels_get,
        if_neg (by rintro ⟨tag, htag, hkey⟩; exact htags tag htag hkey),
        kvGet_kvPut_ne _ (fun hc => h4 hc.symm),
        kvGet_kvPut_ne _ (fun hc => h3 hc.symm),
        kvGet_kvPut_ne _ (fun hc => h2 hc.symm),
        kvGet_kvPut_ne _ (fun hc => h1 hc.symm)]

/-- Witness for C5: the pre-existing unrelated label `team=payments`
survives a concrete update that refreshes the device-derived labels. -/
theorem claim_C5_merge_preserves_unrelated_witness :
    kvGet updatedStaleSecret.labels "team" = some "payments" := by
  have hp := (claim_C5_merge_preserves_unrelated "ctl" staleSecret
    freshDevice updatedStaleSecret "team" (by decide)).2
    (by decide) (by decide) (by decide) (by decide) (by decide)
  rw [hp]
  decide

/-! ### Honest-client lemmas for the existence invariant (C1) -/

lemma resGet_resPut_self {α : Type} (m : List (NsName × α)) (nn : NsName)
    (x : α) : resGet (resPut m nn x) nn = some x := by
  induction m with
  | nil =>
    show (if nn = nn then some x else resGet [] nn) = some x
    rw [if_pos rfl]
  | cons p rest ih =>
    obtain ⟨k, y⟩ := p
    show resGet (if k = nn then (nn, x) :: rest else (k, y) :: resPut rest nn x)
      nn = some x
    by_cases hk : k = nn
    · rw [if_pos hk]
      show (if nn = nn then some x else resGet rest nn) = some x
      rw [if_pos rfl]
    · rw [if_neg hk]
      show (if k = nn then some y else resGet (resPut rest nn x) nn) = some x
      rw [if_neg hk]
      exact ih

lemma resGet_resDel_self {α : Type} (m : List (NsName × α)) (nn : NsName) :
    resGet (resDel m nn) nn = none := by
  induction m with
  | nil => rfl
  | cons p rest ih =>
    obtain ⟨k, y⟩ := p
    by_cases hk : k = nn
    · show resGet (List.filter _ ((k, y) :: rest)) nn = none
      rw [List.filter_cons_of_neg (by simp [hk])]
      exact ih
    · show resGet (List.filter _ ((k, y) :: rest)) nn = none
      rw [List.filter_cons_of_pos (by simp [hk])]
      show (if k = nn then some y else resGet (resDel rest nn) nn) = none
      rw [if_neg hk]
      exact ih

lemma honest_getSecret (s : KState) (nn : NsName) :
    honestOps.getSecret s nn =
      match resGet s.secrets nn with
      | some sec => (.ok sec, s)
      | none => (.error .notFound, s) := rfl

lemma honest_getService (s : KState) (nn : NsName) :
    honestOps.getService s nn =
      match resGet s.services nn with
      | some svc => (.ok svc, s)
      | none => (.error .notFound, s) := rfl

lemma CreateDeviceService_honest_absorbed (mb pc : String) (s : KState)
    (nn : NsName) (d : Device) :
    absorb KErr.isAlreadyExists
        (CreateDeviceService honestOps mb pc s nn d).1 = none ∧
    (CreateDeviceService honestOps mb pc s nn d).2.secrets = s.secrets := by
  unfold CreateDeviceService
  show absorb _ (honestOps.createService s _).1 = none ∧
    (honestOps.createService s _).2.secrets = s.secrets
  unfold honestOps
  dsimp only
  split
  · exact ⟨rfl, rfl⟩
  · exact ⟨rfl, rfl⟩

lemma DeleteDeviceService_honest_ok (s : KState) (nn : NsName) :
    (DeleteDeviceService honestOps s nn).1 = .ok () ∧
    (DeleteDeviceService honestOps s nn).2.secrets = s.secrets := by
  unfold DeleteDeviceService
  rw [honest_getService]
  cases hg : resGet s.services (NsName.mk nn.ns (toDNS1035Name nn.name)) with
  | none => exact ⟨rfl, rfl⟩
  | some svc =>
    show ((honestOps.deleteService s _).1 = _) ∧
      (honestOps.deleteService s _).2.secrets = s.secrets
    unfold honestOps
    dsimp only
    rw [if_pos (by rw [hg]; rfl)]
    exact ⟨rfl, rfl⟩

lemma UpdateDeviceService_honest_secrets (mb pc : String) (s : KState)
    (nn : NsName) (d : Device) :
    (UpdateDeviceService honestOps mb pc s nn d).2.secrets = s.secrets := by
  unfold UpdateDeviceService
  rw [honest_getService]
  cases hg : resGet s.services (NsName.mk nn.ns (toDNS1035Name nn.name)) with
  | none =>
    show (CreateDeviceService honestOps mb pc s nn d).2.secrets = s.secrets
    exact (CreateDeviceService_honest_absorbed mb pc s nn d).2
  | some svc =>
    show (honestOps.updateService s _).2.secrets = s.secrets
    unfold honestOps
    dsimp only
    split
    · rfl
    · rfl

lemma DeleteDeviceSecret_honest (s : KState) (nn : NsName) :
    DeleteDeviceSecret honestOps s nn =
      match resGet s.secrets nn with
      | none => (.ok (), s)
      | some _ => (.ok (), { s with secrets := resDel s.secrets nn }) := by
  unfold DeleteDeviceSecret
  rw [honest_getSecret]
  cases hg : resGet s.secrets nn with
  | none => rfl
  | some sec =>
    show honestOps.deleteSecret s nn = _
    show (if (resGet s.secrets nn).isSome = true then
        ((.ok (), { s with secrets := resDel s.secrets nn })
          : Except KErr Unit × KState)
      else (.error .notFound, s)) = _
    rw [hg]
    rfl

lemma reconcileDeletion_honest_aux (svcCfg : ServiceConfig) (req : NsName)
    (sAfter : KState) (hnone : resGet sAfter.secrets req = none) :
    ∃ s2 : KState,
      ((if svcCfg.createService = true then
          let r2 := DeleteDeviceService honestOps sAfter req
          match absorb KErr.isNotFound r2.1 with
          | some e => some (.error (.kube e), r2.2)
          | none => some (.ok .deleted, r2.2)
        else some (.ok .deleted, sAfter))
        : Option (Except RecErr Outcome × KState))
        = some (.ok .deleted, s2) ∧ resGet s2.secrets req = none := by
  by_cases hsvc : svcCfg.createService = true
  · obtain ⟨h1, h2⟩ := DeleteDeviceService_honest_ok sAfter req
    refine ⟨(DeleteDeviceService honestOps sAfter req).2, ?_,
      by rw [h2]; exact hnone⟩
    rw [if_pos hsvc]
    show ((match absorb KErr.isNotFound
        (DeleteDeviceService honestOps sAfter req).1 with
      | some e =>
        some (.error (.kube e), (DeleteDeviceService honestOps sAfter req).2)
      | none =>
        some (.ok .deleted, (DeleteDeviceService honestOps sAfter req).2))
      : Option (Except RecErr Outcome × KState)) = _
    rw [h1]
    rfl
  · refine ⟨sAfter, ?_, hnone⟩
    rw [if_neg hsvc]

lemma reconcileDeletion_honest (svcCfg : ServiceConfig) (req : NsName)
    (s : KState) :
    ∃ s2 : KState,
      reconcileDeletion honestOps svcCfg req s = some (.ok .deleted, s2) ∧
      resGet s2.secrets req = none := by
  unfold reconcileDeletion
  rw [DeleteDeviceSecret_honest]
  cases hg : resGet s.secrets req with
  | none => exact reconcileDeletion_honest_aux svcCfg req s hg
  | some sec =>
    exact reconcileDeletion_honest_aux svcCfg req
      { s with secrets := resDel s.secrets req }
      (resGet_resDel_self s.secrets req)

lemma mkDeviceSecret_fields (mb : String) (nn : NsName) (d : Device)
    (sec : Secret) (h : mkDeviceSecret mb nn d = some sec) :
    sec.ns = nn.ns ∧ sec.name = nn.name ∧
    kvGet sec.labels LabelManagedBy = some mb := by
  unfold mkDeviceSecret at h
  cases ha : d.addresses.head? with
  | none => rw [ha] at h; exact absurd h (by simp)
  | some addr =>
    rw [ha] at h
    simp only [Option.map_some'] at h
    obtain rfl := (Option.some.inj h).symm
    refine ⟨rfl, rfl, ?_⟩
    show kvGet (putTagLabels d.tags _) LabelManagedBy = some mb
    rw [putTagLabels_get, if_neg (by
      rintro ⟨tag, _, hkey⟩; exact tagLabelKey_ne (by decide) tag hkey)]
    show (if LabelSecretType = LabelManagedBy then some "cluster"
      else kvGet [(LabelManagedBy, mb), (LabelDeviceOS, d.os),
        (LabelDeviceVersion, d.clientVersion)] LabelManagedBy) = some mb
    rw [if_neg (by decide)]
    show (if LabelManagedBy = LabelManagedBy then some mb
      else kvGet [(LabelDeviceOS, d.os),
        (LabelDeviceVersion, d.clientVersion)] LabelManagedBy) = some mb
    rw [if_pos rfl]

lemma updateDeviceSecretObj_fields (mb : String) (sec : Secret) (d : Device)
    (sec' : Secret) (h : updateDeviceSecretObj mb sec d = some sec') :
    sec'.ns = sec.ns ∧ sec'.name = sec.name ∧
    kvGet sec'.labels LabelManagedBy = some mb := by
  unfold updateDeviceSecretObj at h
  cases ha : d.addresses.head? with
  | none => rw [ha] at h; exact absurd h (by simp)
  | some addr =>
    rw [ha] at h
    simp only [Option.map_some'] at h
    obtain rfl := (Option.some.inj h).symm
    refine ⟨rfl, rfl, ?_⟩
    show kvGet (putTagLabels d.tags _) LabelManagedBy = some mb
    rw [putTagLabels_get, if_neg (by
      rintro ⟨tag, _, hkey⟩; exact tagLabelKey_ne (by decide) tag hkey),
      kvGet_kvPut_ne _ (by decide), kvGet_kvPut_ne _ (by decide),
      kvGet_kvPut_self]

lemma reconcileCreate_honest (mb : String) (svcCfg : ServiceConfig)
    (req : NsName) (d : Device) (s : KState) (sec : Secret)
    (hmk : mkDeviceSecret mb req d = some sec)
    (hg : resGet s.secrets req = none) :
    ∃ s2 : KState,
      reconcileCreate honestOps mb svcCfg req d s = some (.ok .created, s2) ∧
      resGet s2.secrets req = some sec := by
  obtain ⟨hns, hname, _⟩ := mkDeviceSecret_fields mb req d sec hmk
  have hkey : NsName.mk sec.ns sec.name = req := by rw [hns, hname]
  unfold reconcileCreate CreateDeviceSecret
  rw [hmk]
  simp only [Option.map_some']
  have hcreate : honestOps.createSecret s sec
      = (.ok (), { s with secrets := resPut s.secrets req sec }) := by
    show (if (resGet s.secrets (NsName.mk sec.ns sec.name)).isSome = true
      then ((.error .alreadyExists, s) : Except KErr Unit × KState)
      else (.ok (), { s with
        secrets := resPut s.secrets (NsName.mk sec.ns sec.name) sec })) = _
    rw [hkey, hg]
    rfl
  rw [hcreate]
  by_cases hsvc : svcCfg.createService = true
  · obtain ⟨habs, hsec2⟩ := CreateDeviceService_honest_absorbed mb
      svcCfg.proxyClass { s with secrets := resPut s.secrets req sec } req d
    refine ⟨(CreateDeviceService honestOps mb svcCfg.proxyClass
        { s with secrets := resPut s.secrets req sec } req d).2, ?_, ?_⟩
    · show ((if svcCfg.createService = true then
          let r2 := CreateDeviceService honestOps mb svcCfg.proxyClass
            { s with secrets := resPut s.secrets req sec } req d
          match absorb KErr.isAlreadyExists r2.1 with
          | some e => some (Except.error (RecErr.kube e), r2.2)
          | none => some (Except.ok Outcome.created, r2.2)
        else some (Except.ok Outcome.created,
          { s with secrets := resPut s.secrets req sec }))
        : Option (Except RecErr Outcome × KState)) = _
      rw [if_pos hsvc]
      show ((match absorb KErr.isAlreadyExists
          (CreateDeviceService honestOps mb svcCfg.proxyClass
            { s with secrets := resPut s.secrets req sec } req d).1 with
        | some e => some (Except.error (RecErr.kube e),
            (CreateDeviceService honestOps mb svcCfg.proxyClass
              { s with secrets := resPut s.secrets req sec } req d).2)
        | none => some (Except.ok Outcome.created,
            (CreateDeviceService honestOps mb svcCfg.proxyClass
              { s with secrets := resPut s.secrets req sec } req d).2))
        : Option (Except RecErr Outcome × KState)) = _
      rw [habs]
    · rw [hsec2]
      exact resGet_resPut_self s.secrets req sec
  · refine ⟨{ s with secrets := resPut s.secrets req sec }, ?_,
      resGet_resPut_self s.secrets req sec⟩
    show ((if svcCfg.createService = true then
        let r2 := CreateDeviceService honestOps mb svcCfg.proxyClass
          { s with secrets := resPut s.secrets req sec } req d
        match absorb KErr.isAlreadyExists r2.1 with
        | some e => some (Except.error (RecErr.kube e), r2.2)
        | none => some (Except.ok Outcome.created, r2.2)
      else some (Except.ok Outcome.created,
        { s with secrets := resPut s.secrets req sec }))
      : Option (Except RecErr Outcome × KState)) = _
    rw [if_neg hsvc]

lemma reconcileUpdate_honest (mb : String) (svcCfg : ServiceConfig)
    (req : NsName) (d : Device) (s : KState) (sec0 sec' : Secret)
    (hg : resGet s.secrets req = some sec0)
    (hkey : NsName.mk sec0.ns sec0.name = req)
    (hupd : updateDeviceSecretObj mb sec0 d = some sec')
    (out : Outcome) (s2 : KState)
    (hrun : reconcileUpdate honestOps mb svcCfg req d s
      = some (.ok out, s2)) :
    resGet s2.secrets req = some sec' := by
  obtain ⟨hns, hname, _⟩ := updateDeviceSecretObj_fields mb sec0 d sec' hupd
  have hkey' : NsName.mk sec'.ns sec'.name = req := by rw [hns, hname, hkey]
  have hupdate : honestOps.updateSecret s sec'
      = (.ok (), { s with secrets := resPut s.secrets req sec' }) := by
    show (if (resGet s.secrets (NsName.mk sec'.ns sec'.name)).isSome = true
      then ((.ok (), { s with
        secrets := resPut s.secrets (NsName.mk sec'.ns sec'.name) sec' })
        : Except KErr Unit × KState)
      else (.error .notFound, s)) = _
    rw [hkey', hg]
    rfl
  unfold reconcileUpdate UpdateDeviceSecret at hrun
  rw [honest_getSecret, hg] at hrun
  dsimp only at hrun
  rw [hupd] at hrun
  simp only [Option.map_some'] at hrun
  rw [hupdate] at hrun
  dsimp only at hrun
  by_cases hsvc : svcCfg.createService = true
  · rw [if_pos hsvc] at hrun
    have hsec2 := UpdateDeviceService_honest_secrets mb svcCfg.proxyClass
      { s with secrets := resPut s.secrets req sec' } req d
    cases hres : (UpdateDeviceService honestOps mb svcCfg.proxyClass
        { s with secrets := resPut s.secrets req sec' } req d).1 with
    | error e =>
      rw [hres] at hrun
      simp only at hrun
      exact absurd hrun (by simp)
    | ok u =>
      rw [hres] at hrun
      simp only [Option.some.injEq, Prod.mk.injEq] at hrun
      rw [← hrun.2, hsec2]
      exact resGet_resPut_self s.secrets req sec'
  · rw [if_neg hsvc] at hrun
    simp only [Option.some.injEq, Prod.mk.injEq] at hrun
    rw [← hrun.2]
    exact resGet_resPut_self s.secrets req sec'

/-- **C1**: for every reconciliation request completed without error
against the honest (API-server-like) client, a secret carrying the
controller's ownership label exists at the request key afterwards if and
only if a device of that name is in the inventory listing and passes the
tag filter.  (The inventory is assumed to carry distinct device names; the
store is assumed well-formed: stored objects' metadata matches their
key.) -/
theorem claim_C1_secret_existence_iff (filter : Device → Bool)
    (managedBy : String) (svcCfg : ServiceConfig) (devices : List Device)
    (req : NsName) (s s' : KState) (out : Outcome)
    (hwf : ∀ nn sec, resGet s.secrets nn = some sec →
      sec.ns = nn.ns ∧ sec.name = nn.name)
    (hnames : (devices.map Device.name).Nodup)
    (hrun : Reconcile honestOps filter managedBy svcCfg (.ok devices) req s
      = some (.ok out, s')) :
    (∃ sec, resGet s'.secrets req = some sec ∧
        kvGet sec.labels LabelManagedBy = some managedBy)
      ↔ ∃ d ∈ devices, d.name = req.name ∧ filter d = true := by
  unfold Reconcile at hrun
  dsimp only at hrun
  cases hfind : devices.find? (fun d => d.name = req.name) with
  | none =>
    rw [hfind] at hrun
    obtain ⟨s2, heq, hnone⟩ := reconcileDeletion_honest svcCfg req s
    rw [heq] at hrun
    simp only [Option.some.injEq, Prod.mk.injEq, Except.ok.injEq] at hrun
    constructor
    · rintro ⟨sec, hsec, -⟩
      rw [← hrun.2, hnone] at hsec
      exact absurd hsec (by simp)
    · rintro ⟨d, hd, hname, -⟩
      have hno := List.find?_eq_none.mp hfind d hd
      simp only [decide_eq_true_eq] at hno
      exact absurd hname hno
  | some d =>
    rw [hfind] at hrun
    dsimp only at hrun
    have hdmem : d ∈ devices := List.mem_of_find?_eq_some hfind
    have hdname : d.name = req.name := by
      have := List.find?_some hfind
      simpa using this
    by_cases hfil : filter d = true
    · rw [if_pos hfil] at hrun
      rw [honest_getSecret] at hrun
      cases hg : resGet s.secrets req with
      | none =>
        rw [hg] at hrun
        dsimp only at hrun
        rw [show KErr.notFound.isNotFound = true from rfl] at hrun
        rw [if_pos rfl] at hrun
        cases hmk : mkDeviceSecret managedBy req d with
        | none =>
          unfold reconcileCreate CreateDeviceSecret at hrun
          rw [hmk] at hrun
          simp at hrun
        | some sec =>
          obtain ⟨s2, heq, hsome⟩ :=
            reconcileCreate_honest managedBy svcCfg req d s sec hmk hg
          rw [heq] at hrun
          simp only [Option.some.injEq, Prod.mk.injEq, Except.ok.injEq]
            at hrun
          constructor
          · intro _
            exact ⟨d, hdmem, hdname, hfil⟩
          · intro _
            obtain ⟨-, -, hmb⟩ := mkDeviceSecret_fields managedBy req d sec hmk
            exact ⟨sec, by rw [← hrun.2]; exact hsome, hmb⟩
      | some sec0 =>
        rw [hg] at hrun
        dsimp only at hrun
        obtain ⟨hns0, hname0⟩ := hwf req sec0 hg
        have hkey0 : NsName.mk sec0.ns sec0.name = req := by rw [hns0, hname0]
        cases hupd : updateDeviceSecretObj managedBy sec0 d with
        | none =>
          unfold reconcileUpdate UpdateDeviceSecret at hrun
          rw [honest_getSecret, hg] at hrun
          dsimp only at hrun
          rw [hupd] at hrun
          simp at hrun
        | some sec' =>
          have hres := reconcileUpdate_honest managedBy svcCfg req d s sec0
            sec' hg hkey0 hupd out s' hrun
          obtain ⟨-, -, hmb⟩ :=
            updateDeviceSecretObj_fields managedBy sec0 d sec' hupd
          constructor
          · intro _
            exact ⟨d, hdmem, hdname, hfil⟩
          · intro _
            exact ⟨sec', hres, hmb⟩
    · rw [if_neg hfil] at hrun
      obtain ⟨s2, heq, hnone⟩ := reconcileDeletion_honest svcCfg req s
      rw [heq] at hrun
      simp only [Option.some.injEq, Prod.mk.injEq, Except.ok.injEq] at hrun
      constructor
      · rintro ⟨sec, hsec, -⟩
        rw [← hrun.2, hnone] at hsec
        exact absurd hsec (by simp)
      · rintro ⟨d', hd', hname', hfil'⟩
        have hdd : d' = d := List.inj_on_of_nodup_map hnames hd' hdmem
          (by rw [hname', hdname])
        rw [hdd] at hfil'
        exact absurd hfil' hfil

/-- A matching device for the C1 witness run. -/
def wDevice : Device :=
  { name := "a.fake.ts.net", nodeID := "id1", hostname := "a", os := "linux",
    clientVersion := "v1", tags := ["tag:a"], addresses := ["100.64.0.1"] }

def wReq : NsName := NsName.mk "default" "a.fake.ts.net"

def wCfg : ServiceConfig :=
  { createService := false, proxyClass := "", ns := "default" }

/-- The secret that the witness run creates. -/
def wCreated : Secret := (mkDeviceSecret "argotails" wReq wDevice).getD probeSecret

def wState1 : KState := { secrets := [(wReq, wCreated)], services := [] }

/-- Witness for C1: a concrete successful run (creation from an empty
store) realizes the existence iff. -/
theorem claim_C1_secret_existence_iff_witness :
    (∃ sec, resGet wState1.secrets wReq = some sec ∧
        kvGet sec.labels LabelManagedBy = some "argotails")
      ↔ ∃ d ∈ [wDevice], d.name = wReq.name ∧ (fun _ => true) d = true :=
  claim_C1_secret_existence_iff (fun _ => true) "argotails" wCfg [wDevice]
    wReq { secrets := [], services := [] } wState1 .created
    (by intro nn sec h; simp [resGet] at h)
    (by decide)
    (by decide)

/-! ### Error handling of `Reconcile` (C8) -/

lemma absorb_okUnit (p : KErr → Bool) : absorb p (Except.ok ()) = none := rfl

lemma absorb_nf :
    absorb KErr.isNotFound (Except.error KErr.notFound) = none := rfl

lemma absorb_ae :
    absorb KErr.isAlreadyExists (Except.error KErr.alreadyExists) = none := rfl

lemma absorb_nf_other (c : Nat) :
    absorb KErr.isNotFound (Except.error (KErr.other c))
      = some (KErr.other c) := rfl

lemma absorb_ae_other (c : Nat) :
    absorb KErr.isAlreadyExists (Except.error (KErr.other c))
      = some (KErr.other c) := rfl

/-- **C8**: for any client behaviour, a not-found error from the deletion
branch's delete (either from the preliminary get or from the delete call)
and an already-exists error from the presence branch's create are absorbed:
the request completes without error; every other cluster read/write error
aborts the request as retryable (`Requeue`), and update errors are never
absorbed.  (Absorption cases are stated with the companion service
disabled; errors abort before any service call, so the abort cases hold for
any service configuration.) -/
theorem claim_C8_absorption_and_aborts (σ : Type) (ops : KubeOps σ)
    (filter : Device → Bool) (managedBy : String) (svcCfg : ServiceConfig)
    (devices : List Device) (req : NsName) (s : σ) :
    (∀ (sec : Secret) (s1 s2 : σ), svcCfg.createService = false →
      devices.find? (fun d => d.name = req.name) = none →
      ops.getSecret s req = (.ok sec, s1) →
      ops.deleteSecret s1 req = (.error .notFound, s2) →
      Reconcile ops filter managedBy svcCfg (.ok devices) req s
        = some (.ok .deleted, s2)) ∧
    (∀ (s1 : σ), svcCfg.createService = false →
      devices.find? (fun d => d.name = req.name) = none →
      ops.getSecret s req = (.error .notFound, s1) →
      Reconcile ops filter managedBy svcCfg (.ok devices) req s
        = some (.ok .deleted, s1)) ∧
    (∀ (d : Device) (sec : Secret) (s1 s2 : σ), svcCfg.createService = false →
      devices.find? (fun d => d.name = req.name) = some d →
      filter d = true →
      ops.getSecret s req = (.error .notFound, s1) →
      mkDeviceSecret managedBy req d = some sec →
      ops.createSecret s1 sec = (.error .alreadyExists, s2) →
      Reconcile ops filter managedBy svcCfg (.ok devices) req s
        = some (.ok .created, s2)) ∧
    (∀ (sec : Secret) (s1 s2 : σ) (c : Nat),
      devices.find? (fun d => d.name = req.name) = none →
      ops.getSecret s req = (.ok sec, s1) →
      ops.deleteSecret s1 req = (.error (.other c), s2) →
      Reconcile ops filter managedBy svcCfg (.ok devices) req s
        = some (.error (.kube (.other c)), s2)) ∧
    (∀ (d : Device) (s1 : σ) (c : Nat),
      devices.find? (fun d => d.name = req.name) = some d →
      filter d = true →
      ops.getSecret s req = (.error (.other c), s1) →
      Reconcile ops filter managedBy svcCfg (.ok devices) req s
        = some (.error (.kube (.other c)), s1)) ∧
    (∀ (d : Device) (sec : Secret) (s1 s2 : σ) (c : Nat),
      devices.find? (fun d => d.name = req.name) = some d →
      filter d = true →
      ops.getSecret s req = (.error .notFound, s1) →
      mkDeviceSecret managedBy req d = some sec →
      ops.createSecret s1 sec = (.error (.other c), s2) →
      Reconcile ops filter managedBy svcCfg (.ok devices) req s
        = some (.error (.kube (.other c)), s2)) ∧
    (∀ (d : Device) (secg secU : Secret) (s1 s2 s3 : σ) (e : KErr),
      devices.find? (fun d => d.name = req.name) = some d →
      filter d = true →
      ops.getSecret s req = (.ok secg, s1) →
      ops.getSecret s1 req = (.ok secg, s2) →
      updateDeviceSecretObj managedBy secg d = some secU →
      ops.updateSecret s2 secU = (.error e, s3) →
      Reconcile ops filter managedBy svcCfg (.ok devices) req s
        = some (.error (.kube e), s3)) := by
  refine ⟨?_, ?_, ?_, ?_, ?_, ?_, ?_⟩
  · intro sec s1 s2 hsvc hfind hget hdel
    unfold Reconcile
    dsimp only
    rw [hfind]
    unfold reconcileDeletion DeleteDeviceSecret
    rw [hget]
    dsimp only
    rw [hdel]
    dsimp only
    rw [absorb_nf]
    rw [hsvc]
    rfl
  · intro s1 hsvc hfind hget
    unfold Reconcile
    dsimp only
    rw [hfind]
    unfold reconcileDeletion DeleteDeviceSecret
    rw [hget]
    dsimp only
    rw [show KErr.notFound.isNotFound = true from rfl, if_pos rfl,
      absorb_okUnit, hsvc]
    rfl
  · intro d sec s1 s2 hsvc hfind hfil hget hmk hcre
    unfold Reconcile
    dsimp only
    rw [hfind]
    dsimp only
    rw [if_pos hfil, hget]
    dsimp only
    rw [show KErr.notFound.isNotFound = true from rfl, if_pos rfl]
    unfold reconcileCreate CreateDeviceSecret
    rw [hmk]
    simp only [Option.map_some']
    rw [hcre]
    dsimp only
    rw [absorb_ae, hsvc]
    rfl
  · intro sec s1 s2 c hfind hget hdel
    unfold Reconcile
    dsimp only
    rw [hfind]
    unfold reconcileDeletion DeleteDeviceSecret
    rw [hget]
    dsimp only
    rw [hdel]
    dsimp only
    rw [absorb_nf_other]
  · intro d s1 c hfind hfil hget
    unfold Reconcile
    dsimp only
    rw [hfind]
    dsimp only
    rw [if_pos hfil, hget]
    dsimp only
    rw [show (KErr.other c).isNotFound = false from rfl, if_neg (by simp)]
  · intro d sec s1 s2 c hfind hfil hget hmk hcre
    unfold Reconcile
    dsimp only
    rw [hfind]
    dsimp only
    rw [if_pos hfil, hget]
    dsimp only
    rw [show KErr.notFound.isNotFound = true from rfl, if_pos rfl]
    unfold reconcileCreate CreateDeviceSecret
    rw [hmk]
    simp only [Option.map_some']
    rw [hcre]
    dsimp only
    rw [absorb_ae_other]
  · intro d secg secU s1 s2 s3 e hfind hfil hget1 hget2 hupd hupdw
    unfold Reconcile
    dsimp only
    rw [hfind]
    dsimp only
    rw [if_pos hfil, hget1]
    dsimp only
    unfold reconcileUpdate UpdateDeviceSecret
    rw [hget2]
    dsimp only
    rw [hupd]
    simp only [Option.map_some']
    rw [hupdw]

/-- A client whose delete always reports not-found, for the C8 witness. -/
def wOpsDeleteNF : KubeOps Unit where
  getSecret s _ := (.ok probeSecret, s)
  createSecret s _ := (.ok (), s)
  updateSecret s _ := (.ok (), s)
  deleteSecret s _ := (.error .notFound, s)
  getService s _ := (.error .notFound, s)
  createService s _ := (.ok (), s)
  updateService s _ := (.ok (), s)
  deleteService s _ := (.ok (), s)

/-- Witness for C8: a not-found delete is absorbed and the request
completes as a successful deletion. -/
theorem claim_C8_absorption_and_aborts_witness :
    Reconcile wOpsDeleteNF (fun _ => true) "ctl" wCfg (.ok []) wReq ()
      = some (.ok .deleted, ()) :=
  (claim_C8_absorption_and_aborts Unit wOpsDeleteNF (fun _ => true) "ctl"
    wCfg [] wReq ()).1 probeSecret () () rfl rfl rfl rfl

/-! ## Poll trigger (`timeBasedReconciliationLoop` / `syncAllDevices`)

The poll loop is embedded as a state machine over a finite schedule of tick
results; an exhausted schedule models context cancellation. -/

/-- The request set of one pass: filtered devices plus already-owned
secrets, deduplicated (the Go `deviceToSync` map). -/
def syncRequests (filter : Device → Bool) (ns : String)
    (devices : List Device) (ownedSecrets : List NsName) : List NsName :=
  let fromDevices :=
    ((devices.filter filter).map fun d => NsName.mk ns d.name).dedup
  ownedSecrets.foldl
    (fun acc nn => if nn ∈ acc then acc else acc ++ [nn]) fromDevices

/-- One `syncAllDevices` pass: list the devices, list the owned secrets,
reconcile each request.  Faithful to the source: per-request errors are
collected into `_errs` and logged, but the pass returns nil regardless —
only the two list failures propagate to the loop. -/
def syncAllDevices (filter : Device → Bool) (ns : String)
    (devicesRes : Except Unit (List Device))
    (secretsRes : Except Unit (List NsName))
    (recon : NsName → Except RecErr Outcome) : Except Unit Unit :=
  match devicesRes with
  | .error _ => .error ()
  | .ok devices =>
    match secretsRes with
    | .error _ => .error ()
    | .ok owned =>
      let toSync := syncRequests filter ns devices owned
      let _errs := toSync.filter fun r => !(recon r).isOk
      .ok ()

/-- One tick of the retry state machine (`remainingRetries`): on a
propagated error decrement the budget and terminate fatally at zero; on
success reset the budget to 5. -/
def pollTick (budget : Nat) (res : Except Unit Unit) : Nat ⊕ Unit :=
  match res with
  | .error _ =>
    let budget' := budget - 1
    if budget' = 0 then .inr () else .inl budget'
  | .ok _ => .inl 5

/-- The loop driven by a finite schedule of pass results; an exhausted
schedule is `ctx.Done()`, which returns without error. -/
def pollLoopRun : Nat → List (Except Unit Unit) → Except Unit Unit
  | _, [] => .ok ()
  | budget, res :: rest =>
    match pollTick budget res with
    | .inr _ => .error ()
    | .inl budget' => pollLoopRun budget' rest

/-- `timeBasedReconciliationLoop`: the budget starts at 5. -/
def timeBasedLoop (passes : List (Except Unit Unit)) : Except Unit Unit :=
  pollLoopRun 5 passes

/-- **C9 counterexample**: a pass in which the only request's
reconciliation errors still returns nil, and five such passes in a row do
not exhaust the budget — contradicting the claim that per-device errors
count as failed passes. -/
theorem claim_C9_counterexample :
    syncAllDevices (fun _ => true) "default" (.ok [wDevice]) (.ok [])
        (fun _ => .error (.kube .notFound)) = .ok () ∧
    (syncRequests (fun _ => true) "default" [wDevice] []).length = 1 ∧
    timeBasedLoop (List.replicate 5
        (syncAllDevices (fun _ => true) "default" (.ok [wDevice]) (.ok [])
          (fun _ => .error (.kube .notFound)))) = .ok () := by
  refine ⟨rfl, by decide, rfl⟩

/-- **C9 (amended)**: the budget starts at 5; a pass propagates an error
(and decrements the budget) exactly when the device listing or the owned
secret listing fails — per-device reconciliation errors are aggregated and
logged but never fail the pass; the budget reaching 0 terminates the loop
fatally; and a successful pass resets the budget to 5. -/
theorem claim_C9_retry_budget_amended (filter : Device → Bool) (ns : String)
    (recon : NsName → Except RecErr Outcome) :
    (∀ (devicesRes : Except Unit (List Device))
        (secretsRes : Except Unit (List NsName)),
      syncAllDevices filter ns devicesRes secretsRes recon = .error () ↔
        devicesRes = .error () ∨ secretsRes = .error ()) ∧
    (∀ (devices : List Device) (owned : List NsName),
      syncAllDevices filter ns (.ok devices) (.ok owned) recon = .ok ()) ∧
    (∀ passes, timeBasedLoop passes = pollLoopRun 5 passes) ∧
    (∀ (b : Nat) (rest : List (Except Unit Unit)),
      pollLoopRun b (.ok () :: rest) = pollLoopRun 5 rest) ∧
    (∀ (b : Nat) (rest : List (Except Unit Unit)),
      pollLoopRun (b + 2) (.error () :: rest) = pollLoopRun (b + 1) rest) ∧
    (∀ (rest : List (Except Unit Unit)),
      pollLoopRun 1 (.error () :: rest) = .error ()) ∧
    timeBasedLoop (List.replicate 5 (.error ())) = .error () := by
  refine ⟨?_, ?_, fun _ => rfl, fun b rest => rfl, ?_, fun rest => rfl, rfl⟩
  · intro devicesRes secretsRes
    cases devicesRes with
    | error u => cases u; simp [syncAllDevices]
    | ok devices =>
      cases secretsRes with
      | error u => cases u; simp [syncAllDevices]
      | ok owned => simp [syncAllDevices]
  · intro devices owned
    rfl
  · intro b rest
    show (match pollTick (b + 2) (.error ()) with
      | .inr _ => Except.error ()
      | .inl budget' => pollLoopRun budget' rest) = pollLoopRun (b + 1) rest
    rw [show pollTick (b + 2) (.error ()) = .inl (b + 1) from by
      unfold pollTick
      rw [show b + 2 - 1 = b + 1 from rfl, if_neg (Nat.succ_ne_zero b)]]

/-! ## Tag Filter (`NewRegexpTagFilter`, tag filter source)

Go's `regexp` is modelled by an AST with set-of-remainders matching
semantics, over the syntax subset that the filter construction produces and
its patterns use: literal characters, groups, alternation and the `^`/`$`
anchors.  `regexp.Compile` is `goCompile`; patterns outside the subset make
the constructor fail, a documented modelling limitation (the source would
accept any valid Go pattern). -/

/-- Regular-expression AST (subset of Go syntax). -/
inductive Regex where
  | eps
  | chr (c : Char)
  | cat (r₁ r₂ : Regex)
  | alt (r₁ r₂ : Regex)
  | caret
  | dollar
deriving DecidableEq

/-- `mres total r s`: all possible remainders after `r` matches a prefix of
`s`.  `total` is the length of the full search text, so `caret` can demand
start-of-text and `dollar` end-of-text (Go non-multiline semantics). -/
def mres (total : Nat) : Regex → List Char → List (List Char)
  | .eps, s => [s]
  | .chr c, s =>
    match s with
    | c' :: rest => if c' = c then [rest] else []
    | [] => []
  | .cat r₁ r₂, s => (mres total r₁ s).flatMap fun s' => mres total r₂ s'
  | .alt r₁ r₂, s => mres total r₁ s ++ mres total r₂ s
  | .caret, s => if s.length = total then [s] else []
  | .dollar, s => if s = [] then [s] else []

/-- Go `MatchString`: the regex matches somewhere in the text. -/
def matchString (r : Regex) (text : List Char) : Bool :=
  (List.range (text.length + 1)).any fun i =>
    !(mres text.length r (text.drop i)).isEmpty

/-- Metacharacters of the modelled subset (anything else is a literal). -/
def isMetaChar (c : Char) : Bool :=
  c = '(' || c = ')' || c = '|' || c = '^' || c = '$' || c = '.' ||
  c = '+' || c = '*' || c = '?' || c = '[' || c = ']' || c = '\\' ||
  c = Char.ofNat 123 || c = Char.ofNat 125

mutual

/-- Alternation level of the recursive-descent `regexp.Compile` model. -/
def pAlt : Nat → List Char → Option (Regex × List Char)
  | 0, _ => none
  | fuel + 1, s =>
    match pCat fuel s with
    | none => none
    | some (r, rest) =>
      match rest with
      | '|' :: rest' =>
        match pAlt fuel rest' with
        | none => none
        | some (r₂, rest'') => some (.alt r r₂, rest'')
      | _ => some (r, rest)

/-- Concatenation level. -/
def pCat : Nat → List Char → Option (Regex × List Char)
  | 0, _ => none
  | fuel + 1, s =>
    match pAtom fuel s with
    | none => some (.eps, s)
    | some (r, rest) =>
      match pCat fuel rest with
      | none => none
      | some (r₂, rest') => some (.cat r r₂, rest')

/-- Atom level: group, anchor, or literal. -/
def pAtom : Nat → List Char → Option (Regex × List Char)
  | 0, _ => none
  | fuel + 1, s =>
    match s with
    | [] => none
    | '(' :: rest =>
      match pAlt fuel rest with
      | none => none
      | some (r, rest') =>
        match rest' with
        | ')' :: rest'' => some (r, rest'')
        | _ => none
    | '^' :: rest => some (.caret, rest)
    | '$' :: rest => some (.dollar, rest)
    | c :: rest => if isMetaChar c then none else some (.chr c, rest)

end

/-- `regexp.Compile` over the modelled subset. -/
def goCompile (s : List Char) : Option Regex :=
  match pAlt (2 * s.length + 4) s with
  | some (r, []) => some r
  | _ => none

/-- Go `strings.TrimSuffix`. -/
def goTrimSuf (suf s : List Char) : List Char :=
  if suf <:+ s then s.take (s.length - suf.length) else s

/-- The combined filter expression `tag:(` `(p₁)|…|(pₙ)` `)(,|$)` built from
the `^`/`$`-trimmed patterns. -/
def tagFilterExpr (patterns : List String) : List Char :=
  let body := patterns.foldl
    (fun acc p =>
      acc ++ ('(' :: goTrimCutset ['^', '$'] p.toList) ++ [')', '|']) []
  "tag:(".toList ++ goTrimSuf ['|'] body ++ ")(,|$)".toList

example : tagFilterExpr ["^a$"] = "tag:((a))(,|$)".toList := by decide
example : tagFilterExpr ["^a$", "^b$"] = "tag:((a)|(b))(,|$)".toList := by
  decide

/-- `NewRegexpTagFilter`: an empty pattern list matches everything;
otherwise each pattern must compile (fail-fast), and the compiled combined
expression is matched against the comma-joined tag list. -/
def NewRegexpTagFilter (patterns : List String) :
    Except Unit (Device → Bool) :=
  if patterns = [] then .ok (fun _ => true)
  else if patterns.all (fun p => (goCompile p.toList).isSome) then
    match goCompile (tagFilterExpr patterns) with
    | some rx =>
      .ok (fun d => matchString rx (joinChar ',' (d.tags.map String.toList)))
    | none => .error ()
  else .error ()

/-- The built filter's verdict, `none` when construction fails. -/
def tagFilterMatch (patterns : List String) (d : Device) : Option Bool :=
  match NewRegexpTagFilter patterns with
  | .ok f => some (f d)
  | .error _ => none

/-- Devices used in the C6 examples. -/
def devTagA : Device :=
  { name := "a", nodeID := "", hostname := "", os := "", clientVersion := "",
    tags := ["tag:a"], addresses := [] }

def devTagB : Device :=
  { name := "b", nodeID := "", hostname := "", os := "", clientVersion := "",
    tags := ["tag:b"], addresses := [] }

example : tagFilterMatch ["^a$"] devTagA = some true := by decide
example : tagFilterMatch ["^a$"] devTagB = some false := by decide
example : tagFilterMatch ["^a$", "^b$"] devTagB = some true := by decide

/-! ### The combined regex as a function of the trimmed patterns -/

/-- The cat-chain the compiler produces for a literal. -/
def litCat : List Char → Regex
  | [] => .eps
  | c :: cs => .cat (.chr c) (litCat cs)

/-- Right-nested alternation, as the compiler produces it. -/
def altGroup : List Regex → Regex
  | [] => .eps
  | [r] => r
  | r :: rs => .alt r (altGroup rs)

/-- The `(,|$)` terminator group. -/
def tagTermRx : Regex :=
  .alt (.cat (.chr ',') .eps) (.cat .dollar .eps)

/-- The AST of `tag:((t₁)|…|(tₙ))(,|$)` for literal trimmed patterns. -/
def mkTagRegex (ts : List (List Char)) : Regex :=
  .cat (.chr 't') (.cat (.chr 'a') (.cat (.chr 'g') (.cat (.chr ':')
    (.cat (altGroup (ts.map fun t => .cat (litCat t) .eps))
      (.cat tagTermRx .eps)))))

example : goCompile (tagFilterExpr ["^a$"]) = some (mkTagRegex [['a']]) := by
  decide
example : goCompile (tagFilterExpr ["^a$", "^b$"])
    = some (mkTagRegex [['a'], ['b']]) := by decide

/-! ### `mres` characterizations -/

lemma mres_cat_chr (total : Nat) (c : Char) (r : Regex) (s : List Char) :
    mres total (.cat (.chr c) r) s =
      match s with
      | c' :: s' => if c' = c then mres total r s' else []
      | [] => [] := by
  cases s with
  | nil => rfl
  | cons c' s' =>
    show ((if c' = c then [s'] else []).flatMap fun u => mres total r u)
      = if c' = c then mres total r s' else []
    by_cases h : c' = c
    · rw [if_pos h, if_pos h]
      simp
    · rw [if_neg h, if_neg h]
      simp

lemma mres_cat_eps (total : Nat) (r : Regex) (s : List Char) :
    mres total (.cat r .eps) s = mres total r s := by
  show ((mres total r s).flatMap fun u => [u]) = mres total r s
  simp

lemma mres_litCat (total : Nat) (t s : List Char) :
    mres total (litCat t) s =
      if t <+: s then [s.drop t.length] else [] := by
  induction t generalizing s with
  | nil =>
    show [s] = if [] <+: s then [s.drop 0] else []
    simp
  | cons c cs ih =>
    show mres total (.cat (.chr c) (litCat cs)) s = _
    rw [mres_cat_chr]
    cases s with
    | nil =>
      show [] = if (c :: cs) <+: [] then _ else []
      rw [if_neg (by simp)]
    | cons c' s' =>
      show (if c' = c then mres total (litCat cs) s' else [])
        = if (c :: cs) <+: (c' :: s') then [(c' :: s').drop (c :: cs).length]
          else []
      by_cases h : c' = c
      · rw [if_pos h, ih]
        subst h
        by_cases hp : cs <+: s'
        · rw [if_pos hp,
            if_pos (by rw [ List.cons_prefix_cons]; exact ⟨rfl, hp⟩)]
          rfl
        · rw [if_neg hp, if_neg (by
            rw [ List.cons_prefix_cons]; rintro ⟨-, h2⟩; exact hp h2)]
      · rw [if_neg h, if_neg (by
          rw [ List.cons_prefix_cons]; rintro ⟨h1, -⟩; exact h h1.symm)]

lemma mres_tagTermRx (total : Nat) (s : List Char) :
    mres total tagTermRx s ≠ [] ↔ s.head? = some ',' ∨ s = [] := by
  show (mres total (.cat (.chr ',') .eps) s ++
    mres total (.cat .dollar .eps) s) ≠ [] ↔ _
  rw [mres_cat_eps, mres_cat_eps]
  cases s with
  | nil =>
    show ([] ++ [([] : List Char)] : List (List Char)) ≠ [] ↔ _
    simp
  | cons c s' =>
    show ((if c = ',' then [s'] else []) ++ ([] : List (List Char))) ≠ [] ↔ _
    by_cases h : c = ','
    · rw [if_pos h]
      simp [h]
    · rw [if_neg h]
      simp [h]

lemma mres_altGroup_ne (total : Nat) (rs : List Regex) (hrs : rs ≠ [])
    (s : List Char) :
    mres total (altGroup rs) s ≠ [] ↔ ∃ r ∈ rs, mres total r s ≠ [] := by
  induction rs with
  | nil => exact absurd rfl hrs
  | cons r rest ih =>
    cases rest with
    | nil =>
      show mres total r s ≠ [] ↔ _
      simp
    | cons r2 rest2 =>
      show (mres total r s ++ mres total (altGroup (r2 :: rest2)) s) ≠ [] ↔ _
      rw [ne_eq, List.append_eq_nil, not_and_or, ← ne_eq, ← ne_eq,
        ih (by simp)]
      constructor
      · rintro (h | ⟨r', hr', h⟩)
        · exact ⟨r, List.mem_cons_self r _, h⟩
        · exact ⟨r', List.mem_cons_of_mem _ hr', h⟩
      · rintro ⟨r', hr', h⟩
        rcases List.mem_cons.mp hr' with rfl | hmem
        · exact Or.inl h
        · exact Or.inr ⟨r', hmem, h⟩

lemma mem_mres_altGroup (total : Nat) (rs : List Regex) (hrs : rs ≠ [])
    (s u : List Char) :
    u ∈ mres total (altGroup rs) s ↔ ∃ r ∈ rs, u ∈ mres total r s := by
  induction rs with
  | nil => exact absurd rfl hrs
  | cons r rest ih =>
    cases rest with
    | nil =>
      show u ∈ mres total r s ↔ _
      simp
    | cons r2 rest2 =>
      show u ∈ (mres total r s ++ mres total (altGroup (r2 :: rest2)) s) ↔ _
      rw [List.mem_append, ih (by simp)]
      constructor
      · rintro (h | ⟨r', hr', h⟩)
        · exact ⟨r, List.mem_cons_self r _, h⟩
        · exact ⟨r', List.mem_cons_of_mem _ hr', h⟩
      · rintro ⟨r', hr', h⟩
        rcases List.mem_cons.mp hr' with rfl | hmem
        · exact Or.inl h
        · exact Or.inr ⟨r', hmem, h⟩

lemma mres_cat_ne_iff (total : Nat) (r₁ r₂ : Regex) (s : List Char) :
    mres total (.cat r₁ r₂) s ≠ [] ↔
      ∃ u ∈ mres total r₁ s, mres total r₂ u ≠ [] := by
  show ((mres total r₁ s).flatMap fun u => mres total r₂ u) ≠ [] ↔ _
  rw [ne_eq, List.flatMap_eq_nil_iff]
  push_neg
  rfl

lemma mres_cat_chr_ne_iff (total : Nat) (c : Char) (r : Regex)
    (s : List Char) :
    mres total (.cat (.chr c) r) s ≠ [] ↔
      ∃ s', s = c :: s' ∧ mres total r s' ≠ [] := by
  rw [mres_cat_chr]
  cases s with
  | nil => simp
  | cons c' s' =>
    show (if c' = c then mres total r s' else []) ≠ [] ↔ _
    by_cases h : c' = c
    · subst h
      simp
    · rw [if_neg h]
      simp [h]

/-- The boundary condition after a candidate pattern has matched. -/
def tagBoundary (u : List Char) : Prop := u.head? = some ',' ∨ u = []

lemma mres_mkTagRegex_ne (total : Nat) (ts : List (List Char))
    (hts : ts ≠ []) (s : List Char) :
    mres total (mkTagRegex ts) s ≠ [] ↔
      ∃ after, s = 't' :: 'a' :: 'g' :: ':' :: after ∧
        ∃ t ∈ ts, t <+: after ∧ tagBoundary (after.drop t.length) := by
  unfold mkTagRegex
  simp only [mres_cat_chr_ne_iff]
  constructor
  · rintro ⟨s1, rfl, s2, rfl, s3, rfl, s4, rfl, hinner⟩
    refine ⟨s4, rfl, ?_⟩
    rw [mres_cat_ne_iff] at hinner
    obtain ⟨u, hu, hterm⟩ := hinner
    rw [mem_mres_altGroup _ _ (by
      intro hc; exact hts (List.map_eq_nil_iff.mp hc)) _ _] at hu
    obtain ⟨r', hr', hu⟩ := hu
    obtain ⟨t, ht, rfl⟩ := List.mem_map.mp hr'
    rw [mres_cat_eps, mres_litCat] at hu
    by_cases hp : t <+: s4
    · rw [if_pos hp] at hu
      simp only [List.mem_singleton] at hu
      subst hu
      rw [mres_cat_eps, mres_tagTermRx] at hterm
      exact ⟨t, ht, hp, hterm⟩
    · rw [if_neg hp] at hu
      exact absurd hu (by simp)
  · rintro ⟨after, rfl, t, ht, hp, hb⟩
    refine ⟨_, rfl, _, rfl, _, rfl, after, rfl, ?_⟩
    rw [mres_cat_ne_iff]
    refine ⟨after.drop t.length, ?_, ?_⟩
    · rw [mem_mres_altGroup _ _ (by
        intro hc; exact hts (List.map_eq_nil_iff.mp hc)) _ _]
      refine ⟨.cat (litCat t) .eps, List.mem_map.mpr ⟨t, ht, rfl⟩, ?_⟩
      rw [mres_cat_eps, mres_litCat, if_pos hp]
      simp
    · rw [mres_cat_eps, mres_tagTermRx]
      exact hb

/-! ### Where the combined regex can match in the comma-joined tag list -/

/-- A suffix of the search text at which the combined regex matches. -/
def condStart (ts : List (List Char)) (u : List Char) : Prop :=
  ∃ after, u = 't' :: 'a' :: 'g' :: ':' :: after ∧
    ∃ t ∈ ts, t <+: after ∧ tagBoundary (after.drop t.length)

lemma exists_suffix_cons (P : List Char → Prop) (c : Char) (l : List Char) :
    (∃ u, u <:+ c :: l ∧ P u) ↔ P (c :: l) ∨ ∃ u, u <:+ l ∧ P u := by
  constructor
  · rintro ⟨u, hsuf, hp⟩
    rcases List.suffix_cons_iff.mp hsuf with rfl | hsuf'
    · exact Or.inl hp
    · exact Or.inr ⟨u, hsuf', hp⟩
  · rintro (hp | ⟨u, hsuf, hp⟩)
    · exact ⟨c :: l, List.suffix_rfl, hp⟩
    · exact ⟨u, hsuf.trans (List.suffix_cons c l), hp⟩

/-- A comma-free literal matching up to a `,`-or-end boundary inside
`name ++ tail` must be the whole name. -/
lemma lit_boundary (t n tail : List Char) (hct : ',' ∉ t) (hcn : ',' ∉ n)
    (htail : tail = [] ∨ tail.head? = some ',') :
    (t <+: n ++ tail ∧ tagBoundary ((n ++ tail).drop t.length)) ↔ t = n := by
  induction t generalizing n with
  | nil =>
    cases n with
    | nil =>
      constructor
      · intro _
        rfl
      · intro _
        refine ⟨ List.nil_prefix, ?_⟩
        unfold tagBoundary
        rcases htail with rfl | hh
        · exact Or.inr rfl
        · exact Or.inl hh
    | cons c n' =>
      constructor
      · rintro ⟨-, hb⟩
        unfold tagBoundary at hb
        rcases hb with hh | hh
        · have hc : c = ',' := by simpa using hh
          exact absurd (by rw [hc]; exact List.mem_cons_self ',' n') hcn
        · simp at hh
      · intro h
        simp at h
  | cons c t' ih =>
    cases n with
    | nil =>
      simp only [List.nil_append]
      constructor
      · rintro ⟨hp, -⟩
        rcases htail with rfl | hh
        · simp at hp
        · cases tail with
          | nil => simp at hp
          | cons c2 w =>
            simp only [List.head?_cons, Option.some.injEq] at hh
            rw [ List.cons_prefix_cons] at hp
            have hc : c = ',' := hp.1.trans hh
            exact absurd (by rw [hc]; exact List.mem_cons_self ',' t') hct
      · intro h
        simp at h
    | cons c2 n' =>
      have hct' : ',' ∉ t' := fun hm => hct (List.mem_cons_of_mem c hm)
      have hcn' : ',' ∉ n' := fun hm => hcn (List.mem_cons_of_mem c2 hm)
      constructor
      · rintro ⟨hp, hb⟩
        rw [List.cons_append, List.cons_prefix_cons] at hp
        have hb' : tagBoundary ((n' ++ tail).drop t'.length) := by
          simpa using hb
        have ht'n' : t' = n' := (ih n' hct' hcn').mp ⟨hp.2, hb'⟩
        rw [hp.1, ht'n']
      · intro h
        rw [List.cons.injEq] at h
        obtain ⟨hpr, hbr⟩ := (ih n' hct' hcn').mpr h.2
        constructor
        · rw [List.cons_append, List.cons_prefix_cons]
          exact ⟨h.1, hpr⟩
        · simpa using hbr

/-- `condStart` demands a leading `"tag:"`; no strict suffix starting
inside a colon-free block (followed by a comma or the end) can provide
one. -/
lemma condStart_suffix_shift (ts : List (List Char)) (m tail : List Char)
    (hm : ':' ∉ m) (htail : tail = [] ∨ ∃ w, tail = ',' :: w) :
    (∃ u, u <:+ m ++ tail ∧ condStart ts u) ↔
      ∃ u, u <:+ tail ∧ condStart ts u := by
  induction m with
  | nil => simp
  | cons c m' ih =>
    have hm' : ':' ∉ m' := fun hc => hm (List.mem_cons_of_mem c hc)
    rw [List.cons_append, exists_suffix_cons, ih hm']
    have hfull : ¬condStart ts (c :: (m' ++ tail)) := by
      rintro ⟨after, heq, -⟩
      rw [List.cons.injEq] at heq
      obtain ⟨-, heq⟩ := heq
      cases m' with
      | nil =>
        rcases htail with rfl | ⟨w, rfl⟩
        · simp at heq
        · simp only [List.nil_append, List.cons.injEq] at heq
          exact absurd heq.1 (by decide)
      | cons x1 m1 =>
        simp only [List.cons_append, List.cons.injEq] at heq
        obtain ⟨-, heq⟩ := heq
        cases m1 with
        | nil =>
          rcases htail with rfl | ⟨w, rfl⟩
          · simp at heq
          · simp only [List.nil_append, List.cons.injEq] at heq
            exact absurd heq.1 (by decide)
        | cons x2 m2 =>
          simp only [List.cons_append, List.cons.injEq] at heq
          obtain ⟨-, heq⟩ := heq
          cases m2 with
          | nil =>
            rcases htail with rfl | ⟨w, rfl⟩
            · simp at heq
            · simp only [List.nil_append, List.cons.injEq] at heq
              exact absurd heq.1 (by decide)
          | cons x3 m3 =>
            simp only [List.cons_append, List.cons.injEq] at heq
            refine hm' ?_
            rw [← heq.1]
            exact List.mem_cons_of_mem x1 (List.mem_cons_of_mem x2
              (List.mem_cons_self x3 m3))
    simp [hfull]

lemma condStart_head_ne {ts : List (List Char)} {c : Char} {l : List Char}
    (h : c ≠ 't') : ¬ condStart ts (c :: l) := by
  rintro ⟨after, heq, -⟩
  rw [List.cons.injEq] at heq
  exact h heq.1

/-- At a segment start, the combined regex matches exactly when some
trimmed pattern equals the whole tag name. -/
lemma condStart_full_iff (ts : List (List Char)) (n tail : List Char)
    (hcomma : ∀ t ∈ ts, ',' ∉ t) (hcn : ',' ∉ n)
    (htail : tail = [] ∨ tail.head? = some ',') :
    condStart ts ('t' :: 'a' :: 'g' :: ':' :: (n ++ tail)) ↔
      ∃ t ∈ ts, t = n := by
  unfold condStart
  constructor
  · rintro ⟨after, heq, t, ht, hp, hb⟩
    have hafter : after = n ++ tail := by
      simp only [List.cons.injEq] at heq
      exact heq.2.2.2.2.symm
    subst hafter
    exact ⟨t, ht, (lit_boundary t n tail (hcomma t ht) hcn htail).mp ⟨hp, hb⟩⟩
  · rintro ⟨t, ht, rfl⟩
    obtain ⟨hp, hb⟩ :=
      (lit_boundary t t tail (hcomma t ht) (hcomma t ht) htail).mpr rfl
    exact ⟨t ++ tail, rfl, t, ht, hp, hb⟩

/-- The combined regex matches somewhere in the comma-joined rendering of a
well-formed tag list exactly when some trimmed pattern equals some complete
tag name. -/
lemma joined_condStart_iff (ts : List (List Char))
    (hcomma : ∀ t ∈ ts, ',' ∉ t) (tags : List (List Char))
    (hwf : ∀ tag ∈ tags, ∃ n, tag = 't' :: 'a' :: 'g' :: ':' :: n ∧
      ':' ∉ n ∧ ',' ∉ n) :
    (∃ u, u <:+ joinChar ',' tags ∧ condStart ts u) ↔
      ∃ tag ∈ tags, ∃ t ∈ ts, tag = 't' :: 'a' :: 'g' :: ':' :: t := by
  induction tags with
  | nil =>
    constructor
    · rintro ⟨u, hsuf, after, heq, -⟩
      obtain ⟨pre, hpre⟩ := hsuf
      have hu : u = [] := (List.append_eq_nil.mp hpre).2
      rw [hu] at heq
      exact absurd heq (by simp)
    · rintro ⟨tag, htag, -⟩
      simp at htag
  | cons tag rest ih =>
    obtain ⟨n, rfl, hcolon, hcn⟩ := hwf tag (List.mem_cons_self _ _)
    have hwf' : ∀ tg ∈ rest, ∃ n', tg = 't' :: 'a' :: 'g' :: ':' :: n' ∧
        ':' ∉ n' ∧ ',' ∉ n' := fun tg h => hwf tg (List.mem_cons_of_mem _ h)
    cases rest with
    | nil =>
      show (∃ u, u <:+ ('t' :: 'a' :: 'g' :: ':' :: n) ∧ condStart ts u) ↔ _
      rw [exists_suffix_cons, exists_suffix_cons, exists_suffix_cons,
        exists_suffix_cons]
      rw [show ('t' :: 'a' :: 'g' :: ':' :: n : List Char)
        = 't' :: 'a' :: 'g' :: ':' :: (n ++ []) from by simp]
      rw [condStart_full_iff ts n [] hcomma hcn (Or.inl rfl)]
      rw [show (n ++ [] : List Char) = n from by simp]
      simp only [condStart_head_ne (show ('a' : Char) ≠ 't' from by decide),
        condStart_head_ne (show ('g' : Char) ≠ 't' from by decide),
        condStart_head_ne (show (':' : Char) ≠ 't' from by decide),
        false_or]
      rw [show (∃ u, u <:+ n ∧ condStart ts u)
          ↔ (∃ u, u <:+ ([] : List Char) ∧ condStart ts u) from by
        have := condStart_suffix_shift ts n [] hcolon (Or.inl rfl)
        rw [show (n ++ [] : List Char) = n from by simp] at this
        exact this]
      constructor
      · rintro (⟨t, ht, rfl⟩ | ⟨u, hsuf, after, heq, -⟩)
        · exact ⟨_, List.mem_cons_self _ _, t, ht, rfl⟩
        · obtain ⟨pre, hpre⟩ := hsuf
          have hu : u = [] := (List.append_eq_nil.mp hpre).2
          rw [hu] at heq
          exact absurd heq (by simp)
      · rintro ⟨tg, htg, t, ht, heq⟩
        rcases List.mem_cons.mp htg with rfl | hmem
        · left
          refine ⟨t, ht, ?_⟩
          simpa using heq.symm
        · simp at hmem
    | cons tag2 rest2 =>
      show (∃ u, u <:+ ('t' :: 'a' :: 'g' :: ':' ::
        (n ++ ',' :: joinChar ',' (tag2 :: rest2))) ∧ condStart ts u) ↔ _
      rw [exists_suffix_cons, exists_suffix_cons, exists_suffix_cons,
        exists_suffix_cons]
      rw [condStart_full_iff ts n (',' :: joinChar ',' (tag2 :: rest2))
        hcomma hcn (Or.inr rfl)]
      simp only [condStart_head_ne (show ('a' : Char) ≠ 't' from by decide),
        condStart_head_ne (show ('g' : Char) ≠ 't' from by decide),
        condStart_head_ne (show (':' : Char) ≠ 't' from by decide),
        false_or]
      rw [condStart_suffix_shift ts n (',' :: joinChar ',' (tag2 :: rest2))
        hcolon (Or.inr ⟨joinChar ',' (tag2 :: rest2), rfl⟩)]
      rw [exists_suffix_cons]
      simp only [condStart_head_ne (show (',' : Char) ≠ 't' from by decide),
        false_or]
      rw [ih hwf']
      constructor
      · rintro (⟨t, ht, rfl⟩ | ⟨tg, htg, t, ht, heq⟩)
        · exact ⟨_, List.mem_cons_self _ _, t, ht, rfl⟩
        · exact ⟨tg, List.mem_cons_of_mem _ htg, t, ht, heq⟩
      · rintro ⟨tg, htg, t, ht, heq⟩
        rcases List.mem_cons.mp htg with rfl | hmem
        · left
          refine ⟨t, ht, ?_⟩
          simpa using heq.symm
        · right
          exact ⟨tg, hmem, t, ht, heq⟩

lemma matchString_iff_suffix (r : Regex) (text : List Char) :
    matchString r text = true ↔
      ∃ u, u <:+ text ∧ mres text.length r u ≠ [] := by
  unfold matchString
  rw [List.any_eq_true]
  constructor
  · rintro ⟨i, hmem, h⟩
    refine ⟨text.drop i, List.drop_suffix i text, ?_⟩
    simpa using h
  · rintro ⟨u, hsuf, h⟩
    obtain ⟨pre, hpre⟩ := hsuf
    refine ⟨pre.length, ?_, ?_⟩
    · rw [List.mem_range]
      have hlen : pre.length + u.length = text.length := by
        rw [← hpre]
        simp
      omega
    · have hdrop : text.drop pre.length = u := by
        rw [← hpre]
        exact List.drop_left pre u
      rw [hdrop]
      simpa using h

/-- **C6**: the empty pattern list builds a filter that accepts every
device; a built filter matches a device exactly when some pattern, after
trimming its `^`/`$` anchors and re-anchoring, equals one complete tag name
(the part after `tag:`) in the comma-joined rendering of the device's tag
set — stated for comma-free literal patterns via the checkable compiled
form `mkTagRegex`, and instantiated on the spec's examples; and the built
filter's verdict is a pure function of the device's tag set. -/
theorem claim_C6_tag_filter (d : Device) :
    (∀ dev : Device, tagFilterMatch [] dev = some true) ∧
    (∀ (patterns : List String) (ts : List (List Char)),
      patterns ≠ [] →
      goCompile (tagFilterExpr patterns) = some (mkTagRegex ts) →
      (patterns.all fun p => (goCompile p.toList).isSome) = true →
      ts = patterns.map (fun p => goTrimCutset ['^', '$'] p.toList) →
      (∀ t ∈ ts, ',' ∉ t) →
      (∀ tag ∈ d.tags, ∃ n, tag.toList = 't' :: 'a' :: 'g' :: ':' :: n ∧
        ':' ∉ n ∧ ',' ∉ n) →
      (tagFilterMatch patterns d = some true ↔
        ∃ tag ∈ d.tags, ∃ t ∈ ts,
          tag.toList = 't' :: 'a' :: 'g' :: ':' :: t)) ∧
    tagFilterMatch ["^a$"] devTagA = some true ∧
    tagFilterMatch ["^a$"] devTagB = some false ∧
    tagFilterMatch ["^a$", "^b$"] devTagA = some true ∧
    tagFilterMatch ["^a$", "^b$"] devTagB = some true ∧
    (∀ (ps : List String) (f : Device → Bool) (d' : Device),
      NewRegexpTagFilter ps = .ok f → d.tags = d'.tags → f d = f d') := by
  refine ⟨fun dev => rfl, ?_, by decide, by decide, by decide, by decide, ?_⟩
  · intro patterns ts hne hparse hval hts hcomma hwf
    have htsne : ts ≠ [] := by
      rw [hts]
      intro hc
      exact hne (List.map_eq_nil_iff.mp hc)
    have hmatch : tagFilterMatch patterns d
        = some (matchString (mkTagRegex ts)
            (joinChar ',' (d.tags.map String.toList))) := by
      unfold tagFilterMatch NewRegexpTagFilter
      rw [if_neg hne, if_pos hval, hparse]
    rw [hmatch, Option.some.injEq]
    rw [matchString_iff_suffix]
    have hcond : ∀ u,
        mres (joinChar ',' (d.tags.map String.toList)).length
          (mkTagRegex ts) u ≠ [] ↔ condStart ts u :=
      fun u => mres_mkTagRegex_ne _ ts htsne u
    rw [exists_congr fun u => and_congr_right fun _ => hcond u]
    have hwf' : ∀ tag ∈ d.tags.map String.toList,
        ∃ n, tag = 't' :: 'a' :: 'g' :: ':' :: n ∧ ':' ∉ n ∧ ',' ∉ n := by
      intro tg htg
      obtain ⟨tag0, htag0, rfl⟩ := List.mem_map.mp htg
      exact hwf tag0 htag0
    rw [joined_condStart_iff ts hcomma (d.tags.map String.toList) hwf']
    constructor
    · rintro ⟨tg, htg, t, ht, heq⟩
      obtain ⟨tag0, htag0, rfl⟩ := List.mem_map.mp htg
      exact ⟨tag0, htag0, t, ht, heq⟩
    · rintro ⟨tag0, htag0, t, ht, heq⟩
      exact ⟨tag0.toList, List.mem_map.mpr ⟨tag0, htag0, rfl⟩, t, ht, heq⟩
  · intro ps f d' hok htags
    unfold NewRegexpTagFilter at hok
    split at hok
    · simp only [Except.ok.injEq] at hok
      rw [← hok]
    · split at hok
      · split at hok
        · simp only [Except.ok.injEq] at hok
          rw [← hok]
          simp only
          rw [htags]
        · exact absurd hok (by simp)
      · exact absurd hok (by simp)

/-- Witness for C6 at the concrete pattern `"^a$"` and a device tagged
`tag:a`. -/
theorem claim_C6_tag_filter_witness :
    tagFilterMatch ["^a$"] devTagA = some true ↔
      ∃ tag ∈ devTagA.tags, ∃ t ∈ [['a']],
        tag.toList = 't' :: 'a' :: 'g' :: ':' :: t :=
  (claim_C6_tag_filter devTagA).2.1 ["^a$"] [['a']] (by decide) (by decide)
    (by decide) (by decide) (by decide)
    (by
      intro tag htag
      have htag' : tag = "tag:a" := by simpa [devTagA] using htag
      rw [htag']
      exact ⟨['a'], by decide, by decide, by decide⟩)

end Argotails
